import Mathlib

/-!
Verification of the layered, journaled state store (`CacheDB` in
`src/wake_rs/src/memory_db.rs`) and the chain orchestration layer
(`src/wake_rs/src/chain.rs`, `blocks.rs`, `txs.rs`, `chain_interface.rs`)
of the wake test-chain, as a shallow embedding in Lean 4.

Machine integers (u64/U256/B256/addresses) are modelled as `Nat`; wrap-around
u64 arithmetic is made explicit where the source relies on it.  Rust
`HashMap`s are modelled as association lists with unique-key semantics
(first match wins, insertion replaces in place).  The backing source
(`ExtDB`, revm's `DatabaseRef`) is modelled as total functions, which is
exact for `EmptyDB` (whose error type is `Infallible`); the one claim that
depends on a fallible backing source uses an explicitly fallible variant.
-/

namespace Wake

/-- Association-list map with `Nat` keys, modelling a Rust `HashMap`. -/
abbrev M (β : Type) := List (Nat × β)

/-- `HashMap::get`: first matching key wins. -/
def mfind? {β : Type} : M β → Nat → Option β
  | [], _ => none
  | (k, v) :: t, a => if k = a then some v else mfind? t a

/-- `HashMap::insert`, discarding the previous value: replace in place if the
key is present, otherwise cons at the front. -/
def minsert {β : Type} : M β → Nat → β → M β
  | [], a, v => [(a, v)]
  | (k, w) :: t, a, v => if k = a then (k, v) :: t else (k, w) :: minsert t a v

/-- `HashMap::insert`, returning the previous value as Rust does. -/
def minsertGet {β : Type} (m : M β) (a : Nat) (v : β) : Option β × M β :=
  (mfind? m a, minsert m a v)

/-- `HashMap::remove`, discarding the removed value. -/
def mremove {β : Type} : M β → Nat → M β
  | [], _ => []
  | (k, w) :: t, a => if k = a then t else (k, w) :: mremove t a

/-- `HashMap::remove`, returning the removed value as Rust does. -/
def mremoveGet {β : Type} (m : M β) (a : Nat) : Option β × M β :=
  (mfind? m a, mremove m a)

/-- Stand-in for keccak256 as used by `Bytecode::hash_slow` in
`memory_db.rs` (`set_code`, `insert_contract`).  Any fixed computable
function works for the embedding; only `hashSlow [] = KECCAK_EMPTY ≠ 0`
matters structurally. -/
def hashSlow (code : List Nat) : Nat :=
  code.foldl (fun h b => h * 257 + b + 1) 7

/-- `revm::primitives::KECCAK_EMPTY`, the hash of empty bytecode. -/
def KECCAK_EMPTY : Nat := hashSlow []

/-- `AccountState` from `memory_db.rs` (lines 815-825). -/
inductive AccountState
  | NotExisting
  | Touched
  | None
deriving DecidableEq, Repr

/-- `revm::state::AccountInfo` restricted to the fields `memory_db.rs`
reads and writes: balance, nonce, code hash and the optional inline
bytecode. -/
structure AccountInfo where
  balance : Nat
  nonce : Nat
  codeHash : Nat
  code : Option (List Nat)
deriving DecidableEq, Repr

/-- `AccountInfo::default()`: zero balance, zero nonce, `KECCAK_EMPTY`
code hash, no code. -/
def AccountInfo.default : AccountInfo :=
  { balance := 0, nonce := 0, codeHash := KECCAK_EMPTY, code := Option.none }

/-- `DbAccount` from `memory_db.rs` (lines 774-780). -/
structure DbAccount where
  info : AccountInfo
  accountState : AccountState
  locallyCreated : Bool
deriving DecidableEq, Repr

/-- `DbAccount::new_not_existing` (memory_db.rs lines 783-788). -/
def DbAccount.newNotExisting : DbAccount :=
  { info := AccountInfo.default, accountState := .NotExisting, locallyCreated := false }

/-- `DbAccount::info()` (memory_db.rs lines 790-796): `NotExisting`
accounts read as absent. -/
def DbAccount.infoOpt (d : DbAccount) : Option AccountInfo :=
  if d.accountState = .NotExisting then Option.none else some d.info

/-- `JournalEntry` from `memory_db.rs` (lines 18-24). -/
inductive JournalEntry
  | contractChange (codeHash : Nat) (prev : Option (List Nat))
  | accountChange (address : Nat) (prev : Option DbAccount)
  | storageChange (address : Nat) (changes : M (Option Nat))
  | storageReplace (address : Nat) (prev : Option (M Nat))
deriving DecidableEq, Repr

/-- The backing source (`DatabaseRef`, revm) as total functions.  This is
exact for `EmptyDB` (error type `Infallible`) and models any
non-failing fork source. -/
structure ExtDB where
  basic : Nat → Option AccountInfo
  codeByHash : Nat → List Nat
  storage : Nat → Nat → Nat
  blockHash : Nat → Nat

/-- revm's `EmptyDB`: no accounts, default bytecode, zero storage.
(`EmptyDB::block_hash_ref` hashes the number; modelled abstractly as 0 -
no claim depends on its value.) -/
def emptyDB : ExtDB :=
  { basic := fun _ => Option.none
    codeByHash := fun _ => []
    storage := fun _ _ => 0
    blockHash := fun _ => 0 }

/-- `CacheDB<ExtDB>` from `memory_db.rs` (lines 34-53). -/
structure Store where
  accounts : List (M DbAccount)
  contracts : M (List Nat)
  storage : List (M (M Nat))
  blockHashes : M Nat
  db : ExtDB
  lastBlockNumber : Nat
  journal : List JournalEntry
  snapshotJournalIndexes : List Nat

/-- `CacheDB::new` (memory_db.rs lines 56-70). -/
def Store.new (db : ExtDB) (lastBlockNumber : Nat) : Store :=
  { accounts := [[], []]
    contracts := minsert (minsert [] KECCAK_EMPTY []) 0 []
    storage := [[], []]
    blockHashes := []
    db := db
    lastBlockNumber := lastBlockNumber
    journal := []
    snapshotJournalIndexes := [] }

/-- Scan layers from last (writable) to first (`accounts.iter().rev()`). -/
def findInLayers (layers : List (M DbAccount)) (a : Nat) : Option DbAccount :=
  layers.reverse.findSome? (fun l => mfind? l a)

/-- Update element `i` of a list of layers; out of range is a no-op
(the corresponding Rust index would panic - never reached on valid
inputs). -/
def layersUpdate {α : Type} : List α → Nat → (α → α) → List α
  | [], _, _ => []
  | x :: t, 0, f => f x :: t
  | x :: t, Nat.succ i, f => x :: layersUpdate t i f

/-- Update the last (writable) layer (`last_mut().unwrap()`). -/
def updateLast {α : Type} (ls : List α) (f : α → α) : List α :=
  layersUpdate ls (ls.length - 1) f

/-- Read the last (writable) layer. -/
def lastLayer {β : Type} (ls : List (M β)) : M β :=
  (ls.get? (ls.length - 1)).getD []

/-- `CacheDB::forked_account_or_new` (memory_db.rs lines 140-155); the
`if let Some(bytecode) = basic.info.code` re-assignment is a no-op. -/
def forkedAccountOrNew (s : Store) (a : Nat) : DbAccount :=
  match s.db.basic a with
  | some info => { info := info, accountState := .None, locallyCreated := false }
  | Option.none => DbAccount.newNotExisting

/-- `snapshot_journal_indexes.binary_search(&x).unwrap_or_else(|i| i)`:
for the sorted, duplicate-free index vector this equals the number of
elements smaller than `x` (Rust's result is unspecified only among
duplicates). -/
def binarySearchUnwrap (xs : List Nat) (x : Nat) : Nat :=
  (xs.filter (fun y => y < x)).length

/-- `CacheDB::rollback_journal_entry` (memory_db.rs lines 157-207).
Note that in the selfdestruct-storage case the source's
`mem::replace(&mut entry.get_mut().clone(), HashMap::new())` operates on a
temporary clone, and that the `ContractChange` arm ignores its payload and
always removes. -/
def rollbackJournalEntry (s : Store) (entry : JournalEntry) (journalIndex : Nat) :
    JournalEntry × Store :=
  match entry with
  | .contractChange codeHash _ =>
      let om := mremoveGet s.contracts codeHash
      (.contractChange codeHash om.1, { s with contracts := om.2 })
  | .accountChange address account =>
      let pos := binarySearchUnwrap s.snapshotJournalIndexes (journalIndex + 1) + 1
      let layer := (s.accounts.get? pos).getD []
      let ol :=
        match account with
        | some account => minsertGet layer address account
        | Option.none => mremoveGet layer address
      (.accountChange address ol.1,
        { s with accounts := layersUpdate s.accounts pos (fun _ => ol.2) })
  | .storageChange address storageChange =>
      let pos := binarySearchUnwrap s.snapshotJournalIndexes (journalIndex + 1) + 1
      let layer := (s.storage.get? pos).getD []
      let stor := (mfind? layer address).getD []
      let sn :=
        storageChange.foldl (fun (acc : M Nat × M (Option Nat)) kv =>
          match kv.2 with
          | some v =>
              let os := minsertGet acc.1 kv.1 v
              (os.2, minsert acc.2 kv.1 os.1)
          | Option.none =>
              let os := mremoveGet acc.1 kv.1
              (os.2, minsert acc.2 kv.1 os.1)) (stor, [])
      (.storageChange address sn.2,
        { s with storage :=
            layersUpdate s.storage pos (fun l => minsert l address sn.1) })
  | .storageReplace address storage =>
      let layer := lastLayer s.storage
      let ol :=
        match storage with
        | some storage => minsertGet layer address storage
        | Option.none => mremoveGet layer address
      (.storageReplace address ol.1,
        { s with storage := updateLast s.storage (fun _ => ol.2) })

/-- Loop body of `CacheDB::rollback` (memory_db.rs lines 235-245): pop the
last journal entry, invert it at its absolute index, collect the inverse. -/
def rollbackLoop : Nat → Store → List JournalEntry × Store
  | 0, s => ([], s)
  | Nat.succ n, s =>
      match s.journal.getLast? with
      | Option.none => ([], s)
      | some entry =>
          let s1 := { s with journal := s.journal.dropLast }
          let rs := rollbackJournalEntry s1 entry s1.journal.length
          let rest := rollbackLoop n rs.2
          (rs.1 :: rest.1, rest.2)

/-- `CacheDB::rollback` (memory_db.rs lines 235-245). -/
def Store.rollback (s : Store) (journalIndex : Nat) : List JournalEntry × Store :=
  rollbackLoop (s.journal.length - journalIndex) s

/-- `CacheDB::restore_rollback` (memory_db.rs lines 247-255). -/
def Store.restoreRollback (s : Store) (rollback : List JournalEntry) : Store :=
  rollback.reverse.foldl (fun s entry =>
    let rs := rollbackJournalEntry s entry s.journal.length
    { rs.2 with journal := rs.2.journal ++ [rs.1] }) s

/-- `CacheDB::snapshot` (memory_db.rs lines 287-294). -/
def Store.snapshot (s : Store) : Nat × Store :=
  let accounts := s.accounts ++ [[]]
  (accounts.length - 2,
    { s with
      accounts := accounts
      storage := s.storage ++ [[]]
      snapshotJournalIndexes := s.snapshotJournalIndexes ++ [s.journal.length] })

/-- `CacheDB::revert_snapshot` (memory_db.rs lines 296-307). -/
def Store.revertSnapshot (s : Store) (snapshot : Nat) : Nat × Store :=
  let journalIndex := (s.snapshotJournalIndexes.get? (snapshot - 1)).getD 0
  (journalIndex,
    { s with
      accounts := s.accounts.take (snapshot + 1)
      storage := s.storage.take (snapshot + 1)
      journal := s.journal.take journalIndex
      snapshotJournalIndexes := s.snapshotJournalIndexes.take (snapshot - 1) })

/-- The pattern shared verbatim by `CacheDB::set_balance`, `set_code` and
`set_nonce` (the source triplicates it): look the account up across all
layers, on a miss fetch it from the backing source and cache it in layer
0, materialize it in the writable layer (`entry(..).or_insert(..)`),
journal its pre-mutation clone, then apply `mutate` (the per-setter field
write plus the `NotExisting -> Touched` transition). -/
def setAccountWith (s : Store) (address : Nat) (mutate : DbAccount → DbAccount) : Store :=
  let found := findInLayers s.accounts address
  let latest := found.getD (forkedAccountOrNew s address)
  let s1 :=
    match found with
    | some _ => s
    | Option.none =>
        { s with accounts := layersUpdate s.accounts 0 (fun l => minsert l address latest) }
  let dbAccount := (mfind? (lastLayer s1.accounts) address).getD latest
  let s2 := { s1 with journal := s1.journal ++ [JournalEntry.accountChange address (some dbAccount)] }
  { s2 with accounts := updateLast s2.accounts (fun l => minsert l address (mutate dbAccount)) }

/-- The `NotExisting -> Touched` transition shared by the three setters. -/
def touchIfNotExisting (st : AccountState) : AccountState :=
  if st = AccountState.NotExisting then AccountState.Touched else st

/-- `CacheDB::set_balance` (memory_db.rs lines 309-343). -/
def Store.setBalance (s : Store) (address : Nat) (balance : Nat) : Store :=
  setAccountWith s address (fun d =>
    { d with
      info := { d.info with balance := balance }
      accountState := touchIfNotExisting d.accountState })

/-- `CacheDB::set_code` (memory_db.rs lines 345-382): store the bytecode
inline and recompute the code hash. -/
def Store.setCode (s : Store) (address : Nat) (code : List Nat) : Store :=
  setAccountWith s address (fun d =>
    { d with
      info := { d.info with code := some code, codeHash := hashSlow code }
      accountState := touchIfNotExisting d.accountState })

/-- `CacheDB::set_nonce` (memory_db.rs lines 401-436). -/
def Store.setNonce (s : Store) (address : Nat) (nonce : Nat) : Store :=
  setAccountWith s address (fun d =>
    { d with
      info := { d.info with nonce := nonce }
      accountState := touchIfNotExisting d.accountState })

/-- `CacheDB::set_storage` (memory_db.rs lines 384-399). -/
def Store.setStorage (s : Store) (address : Nat) (index : Nat) (value : Nat) : Store :=
  let layer := lastLayer s.storage
  let stor := (mfind? layer address).getD []
  let ps := minsertGet stor index value
  { s with
    storage := updateLast s.storage (fun _ => minsert layer address ps.2)
    journal := s.journal ++ [JournalEntry.storageChange address [(index, ps.1)]] }

/-- `CacheDB::insert_contract` (memory_db.rs lines 443-460), returning the
possibly-rewritten `AccountInfo` together with the updated store. -/
def insertContract (s : Store) (info : AccountInfo) : AccountInfo × Store :=
  let res :=
    match info.code with
    | some code =>
        if code ≠ [] then
          let info1 :=
            if info.codeHash = KECCAK_EMPTY then { info with codeHash := hashSlow code }
            else info
          match mfind? s.contracts info1.codeHash with
          | some _ => (info1, s)
          | Option.none =>
              (info1,
                { s with
                  contracts := minsert s.contracts info1.codeHash code
                  journal := s.journal ++ [JournalEntry.contractChange info1.codeHash Option.none] })
        else (info, s)
    | Option.none => (info, s)
  (if res.1.codeHash = 0 then { res.1 with codeHash := KECCAK_EMPTY } else res.1, res.2)

/-- One entry of a `revm`-produced state diff (`revm::state::Account`)
restricted to the flags and fields `CacheDB::commit` consumes:
`is_touched`, `is_selfdestructed`, `is_created`, the new `AccountInfo`,
and the storage slots' `present_value`. -/
structure RevmAccount where
  info : AccountInfo
  storage : M Nat
  touched : Bool
  selfdestructed : Bool
  created : Bool
deriving DecidableEq, Repr

/-- Body of the per-account loop of `CacheDB::commit`
(memory_db.rs lines 522-611).  In the selfdestruct branch, the source
replaces a temporary clone of the occupied storage entry
(`mem::replace(&mut entry.get_mut().clone(), HashMap::new())`), so the
stored map itself is left unchanged while its clone is journaled. -/
def commitOne (s : Store) (address : Nat) (account : RevmAccount) : Store :=
  if ¬ account.touched then s
  else if account.selfdestructed then
    let prevAccount := mfind? (lastLayer s.accounts) address
    let s1 :=
      { s with accounts :=
          updateLast s.accounts (fun l => minsert l address DbAccount.newNotExisting) }
    let s2 := { s1 with journal := s1.journal ++ [JournalEntry.accountChange address prevAccount] }
    let prevStorage := mfind? (lastLayer s2.storage) address
    let s3 :=
      match prevStorage with
      | some _ => s2
      | Option.none =>
          { s2 with storage := updateLast s2.storage (fun l => minsert l address []) }
    { s3 with journal := s3.journal ++ [JournalEntry.storageReplace address prevStorage] }
  else
    let ic := insertContract s account.info
    let s1 := ic.2
    let prevAccount := mfind? (lastLayer s1.accounts) address
    let newAccount : DbAccount :=
      match prevAccount with
      | some prev =>
          { info := ic.1, accountState := AccountState.Touched, locallyCreated := prev.locallyCreated }
      | Option.none =>
          { info := ic.1, accountState := AccountState.Touched, locallyCreated := account.created }
    let s2 :=
      { s1 with accounts := updateLast s1.accounts (fun l => minsert l address newAccount) }
    let currentStorage := (mfind? (lastLayer s2.storage) address).getD []
    let cp :=
      account.storage.foldl (fun (acc : M Nat × M (Option Nat)) kv =>
        let os := minsertGet acc.1 kv.1 kv.2
        (os.2, minsert acc.2 kv.1 os.1)) (currentStorage, [])
    let s3 :=
      { s2 with storage := updateLast s2.storage (fun l => minsert l address cp.1) }
    { s3 with journal := s3.journal ++
        [JournalEntry.accountChange address prevAccount, JournalEntry.storageChange address cp.2] }

/-- `CacheDB::commit` (`DatabaseCommit`, memory_db.rs lines 520-613);
the diff map's iteration order is fixed by the list. -/
def Store.commit (s : Store) (changes : List (Nat × RevmAccount)) : Store :=
  changes.foldl (fun s kv => commitOne s kv.1 kv.2) s

/-- `Database::basic` for `CacheDB` (memory_db.rs lines 618-628):
scan layers top-down, fall through to the backing source and cache the
result in layer 0. -/
def Store.basicMut (s : Store) (address : Nat) : Option AccountInfo × Store :=
  match findInLayers s.accounts address with
  | some dbAccount => (dbAccount.infoOpt, s)
  | Option.none =>
      let basic := forkedAccountOrNew s address
      (basic.infoOpt,
        { s with accounts := layersUpdate s.accounts 0 (fun l => minsert l address basic) })

/-- `DatabaseRef::basic_ref` for `CacheDB` (memory_db.rs lines 722-729). -/
def Store.basicRef (s : Store) (address : Nat) : Option AccountInfo :=
  match findInLayers s.accounts address with
  | some account => account.infoOpt
  | Option.none => s.db.basic address

/-- `Database::code_by_hash` (memory_db.rs lines 630-638), with caching. -/
def Store.codeByHashMut (s : Store) (codeHash : Nat) : List Nat × Store :=
  match mfind? s.contracts codeHash with
  | some code => (code, s)
  | Option.none =>
      let code := s.db.codeByHash codeHash
      (code, { s with contracts := minsert s.contracts codeHash code })

/-- `DatabaseRef::code_by_hash_ref` (memory_db.rs lines 731-736). -/
def Store.codeByHashRef (s : Store) (codeHash : Nat) : List Nat :=
  match mfind? s.contracts codeHash with
  | some code => code
  | Option.none => s.db.codeByHash codeHash

/-- The per-layer scan shared by `Database::storage` and
`DatabaseRef::storage_ref` (memory_db.rs lines 646-660 / 741-755):
walk `zip(accounts.rev(), storage.rev())`, accumulate the
`locally_created` flag, stop at a `NotExisting` account (slot reads 0) or
at the first layer holding the slot. -/
def storageScan : List (M DbAccount × M (M Nat)) → Nat → Nat → Bool → Option Nat × Bool
  | [], _, _, lc => (Option.none, lc)
  | (accs, stor) :: rest, address, index, lc =>
      let lc1 :=
        match mfind? accs address with
        | some d => if d.locallyCreated then true else lc
        | Option.none => lc
      let stop :=
        match mfind? accs address with
        | some d => d.accountState == AccountState.NotExisting
        | Option.none => false
      if stop then (some 0, lc1)
      else
        match mfind? stor address with
        | some m =>
            match mfind? m index with
            | some v => (some v, lc1)
            | Option.none => storageScan rest address index lc1
        | Option.none => storageScan rest address index lc1

/-- `DatabaseRef::storage_ref` (memory_db.rs lines 738-761). -/
def Store.storageRef (s : Store) (address : Nat) (index : Nat) : Nat :=
  match storageScan (s.accounts.reverse.zip s.storage.reverse) address index false with
  | (some v, _) => v
  | (Option.none, true) => 0
  | (Option.none, false) => s.db.storage address index

/-- `Database::storage` (memory_db.rs lines 643-702): same scan, then the
fall-through caches into layer 0 (account record and storage slot). -/
def Store.storageMut (s : Store) (address : Nat) (index : Nat) : Nat × Store :=
  match storageScan (s.accounts.reverse.zip s.storage.reverse) address index false with
  | (some v, _) => (v, s)
  | (Option.none, true) => (0, s)
  | (Option.none, false) =>
      let cacheSlot := fun (s : Store) (value : Nat) =>
        { s with storage := layersUpdate s.storage 0 (fun l =>
            match mfind? l address with
            | some m => minsert l address (minsert m index value)
            | Option.none => minsert l address [(index, value)]) }
      match mfind? ((s.accounts.get? 0).getD []) address with
      | some _ =>
          let value := s.db.storage address index
          (value, cacheSlot s value)
      | Option.none =>
          let info := s.db.basic address
          let value := if info.isSome then s.db.storage address index else 0
          let newAccount : DbAccount :=
            match info with
            | some i => { info := i, accountState := .None, locallyCreated := false }
            | Option.none => DbAccount.newNotExisting
          let s1 :=
            { s with accounts := layersUpdate s.accounts 0 (fun l => minsert l address newAccount) }
          (value, cacheSlot s1 value)

/-- Wrapping u64 subtraction (`a - b` in release mode). -/
def sub64 (a b : Nat) : Nat :=
  (a + 2 ^ 64 - b % 2 ^ 64) % 2 ^ 64

/-- `Database::block_hash` (memory_db.rs lines 704-716): the window test
`number > last || number < last - 256` uses wrapping u64 subtraction. -/
def Store.blockHashMut (s : Store) (number : Nat) : Nat × Store :=
  if number > s.lastBlockNumber ∨ number < sub64 s.lastBlockNumber 256 then (0, s)
  else
    match mfind? s.blockHashes number with
    | some hash => (hash, s)
    | Option.none =>
        let hash := s.db.blockHash number
        (hash, { s with blockHashes := minsert s.blockHashes number hash })

/-- `DatabaseRef::block_hash_ref` (memory_db.rs lines 763-771). -/
def Store.blockHashRef (s : Store) (number : Nat) : Nat :=
  if number > s.lastBlockNumber ∨ number < sub64 s.lastBlockNumber 256 then 0
  else
    match mfind? s.blockHashes number with
    | some hash => hash
    | Option.none => s.db.blockHash number

/-- `revm::context::BlockEnv` restricted to the fields the orchestrator
reads and writes. -/
structure BlockEnvM where
  number : Nat
  timestamp : Nat
  gasLimit : Nat
deriving DecidableEq, Repr

/-- `Block` from `blocks.rs` (lines 179-188); the back-reference to the
chain is dropped. -/
structure BlockRec where
  blockEnv : BlockEnvM
  blockHash : Nat
  journalIndex : Option Nat
deriving DecidableEq, Repr

/-- `BlockInfo` from `tx.rs`: a transaction's block is either a mined
`Block` (identified here by its number, which `add_block` keeps unique)
or the still-pending block env. -/
inductive BlockInfoM
  | mined (blockNumber : Nat)
  | pending (blockEnv : BlockEnvM)
deriving DecidableEq, Repr

/-- `TransactionAbc` from `tx.rs` restricted to the fields the
orchestration claims read: the block assignment, the journal index
captured before execution, and the gas used. -/
structure TxRec where
  block : BlockInfoM
  journalIndex : Nat
  gasUsed : Nat
deriving DecidableEq, Repr

/-- Stream stand-in for `SmallRng::gen::<[u8; 32]>` in `Chain::mine`
(chain.rs line 872): a fresh pseudo-random (here: nonzero) value plus the
successor seed.  No claim depends on the generated values. -/
def rngNext (seed : Nat) : Nat × Nat :=
  (2 * seed + 1, seed + 1)

/-- `Chain` from `chain.rs` (lines 151-193) merged with its `Blocks` and
`Txs` objects (`blocks.rs`, `txs.rs`), restricted to the orchestration
state the claims are about.  `pendingTxs` holds indices into `txs`,
modelling the shared `Py<TransactionAbc>` references.  The EVM
(`evm.cfg` as a chain id, `evm.block`, the `DB`) is inlined; all
operations below model the connected state (the source returns a
`Not connected` error when `evm` is `None`). -/
structure ChainState where
  automine : Bool
  blockGasLimit : Nat
  labels : M Nat
  defaultTxAccount : Option Nat
  defaultCallAccount : Option Nat
  defaultEstimateAccount : Option Nat
  defaultAccessListAccount : Option Nat
  latestBlockEnv : Option BlockEnvM
  snapshots : List (Nat × BlockEnvM)
  pendingTxs : List Nat
  pendingGasUsed : Nat
  blocks : List BlockRec
  blocksStartIndex : Nat
  cfg : Nat
  evmBlock : BlockEnvM
  db : Store
  txs : List TxRec
  rng : Nat

/-- `Chain::mine` (chain.rs lines 861-908): capture the live env as a
mined block (restoring its gas limit by the pending gas used), record the
hash and journal index, reassign the pending transactions, and advance
the live env.  `Blocks::add_block` (blocks.rs lines 24-44) appends the
block; its contiguity assertion is an invariant, not modelled. -/
def ChainState.mine (c : ChainState) (force : Bool) : Option BlockRec × ChainState :=
  if ¬ c.automine ∧ ¬ force then (Option.none, c)
  else
    let latest := c.evmBlock
    let lastBlockNumber := latest.number
    let (blockHash, rng1) := rngNext c.rng
    let db1 :=
      { c.db with
        lastBlockNumber := lastBlockNumber
        blockHashes := minsert c.db.blockHashes lastBlockNumber blockHash }
    let blockEnv := { latest with gasLimit := latest.gasLimit + c.pendingGasUsed }
    let block : BlockRec :=
      { blockEnv := blockEnv, blockHash := blockHash, journalIndex := some db1.journal.length }
    let txs1 := c.pendingTxs.foldl (fun txs i =>
      layersUpdate txs i (fun t => { t with block := BlockInfoM.mined blockEnv.number })) c.txs
    (some block,
      { c with
        latestBlockEnv := some latest
        rng := rng1
        db := db1
        blocks := c.blocks ++ [block]
        txs := txs1
        pendingTxs := []
        pendingGasUsed := 0
        evmBlock :=
          { number := latest.number + 1
            timestamp := latest.timestamp + 1
            gasLimit := c.blockGasLimit } })

/-- `Chain::transact` (chain.rs lines 1042-1158) with the external VM
abstracted: `inspect_replay_commit` commits a diff to the store and
reports the gas used (both are inputs here).  The transaction record is
created after `mine(force=false)`, so under automine it is assigned the
fresh block directly and is never in `pending_txs`; the revert/halt error
derivation at the end does not change any state. -/
def ChainState.transact (c : ChainState) (diff : List (Nat × RevmAccount)) (gasUsed : Nat) :
    ChainState :=
  let journalIndex := c.db.journal.length
  let c1 := { c with db := Store.commit c.db diff }
  let c2 :=
    { c1 with
      evmBlock := { c1.evmBlock with gasLimit := c1.evmBlock.gasLimit - gasUsed }
      pendingGasUsed := c1.pendingGasUsed + gasUsed }
  let (minedBlock, c3) := c2.mine false
  let txBlock :=
    match minedBlock with
    | some block => BlockInfoM.mined block.blockEnv.number
    | Option.none => BlockInfoM.pending c3.evmBlock
  let tx : TxRec := { block := txBlock, journalIndex := journalIndex, gasUsed := gasUsed }
  let txIndex := c3.txs.length
  let c4 := { c3 with txs := c3.txs ++ [tx] }
  match minedBlock with
  | some _ => c4
  | Option.none => { c4 with pendingTxs := c4.pendingTxs ++ [txIndex] }

/-- Sequential `transact` calls. -/
def ChainState.transactSeq (c : ChainState) (inputs : List (List (Nat × RevmAccount) × Nat)) :
    ChainState :=
  inputs.foldl (fun c input => c.transact input.1 input.2) c

/-- `Chain::snapshot` (chain.rs lines 442-452): take a store snapshot and
push `(cfg_env, block_env)`; nothing else of the orchestrator state is
captured. -/
def ChainState.snapshotChain (c : ChainState) : Nat × ChainState :=
  let (snapshotId, db1) := Store.snapshot c.db
  (snapshotId, { c with db := db1, snapshots := c.snapshots ++ [(c.cfg, c.evmBlock)] })

/-- `Txs::remove_txs` (txs.rs lines 19-26):
`binary_search_by(journal_index)` then truncate.  For the sorted,
duplicate-free journal-index sequence the split point equals the number
of transactions whose journal index is below the cut. -/
def removeTxs (txs : List TxRec) (journalIndex : Nat) : List TxRec :=
  txs.take ((txs.filter (fun t => t.journalIndex < journalIndex)).length)

/-- `Chain::revert` (chain.rs lines 454-497): truncate the snapshot stack
and pop the captured `(cfg_env, block_env)`, revert the store, prune
blocks (`Blocks::remove_blocks`, blocks.rs lines 46-49) and transactions,
and recompute `latest_block_env` from the now-last block
(`Blocks::get_block` on the local chain).  The `pop().unwrap()` default is
unreachable for a valid id. -/
def ChainState.revertChain (c : ChainState) (snapshotId : Nat) : ChainState :=
  let snapshots1 := c.snapshots.take snapshotId
  let cfgBlock := (snapshots1.getLast?).getD (c.cfg, c.evmBlock)
  let snapshots2 := snapshots1.dropLast
  let lastBlockNumber := cfgBlock.2.number - 1
  let (journalIndex, db1) := Store.revertSnapshot c.db snapshotId
  let db2 := { db1 with lastBlockNumber := lastBlockNumber }
  let blocks1 := c.blocks.take (lastBlockNumber + 1 - c.blocksStartIndex)
  let txs1 := removeTxs c.txs journalIndex
  let latest := (blocks1.get? (lastBlockNumber - c.blocksStartIndex)).map (fun b => b.blockEnv)
  { c with
    snapshots := snapshots2
    db := db2
    cfg := cfgBlock.1
    evmBlock := cfgBlock.2
    blocks := blocks1
    txs := txs1
    latestBlockEnv := latest }

/-- The generated setter for the `#[pyo3(get, set)] automine` field of
`Chain` (chain.rs line 178): a plain field write. -/
def ChainState.setAutomine (c : ChainState) (automine : Bool) : ChainState :=
  { c with automine := automine }

/-- The generated setter for `_labels` restricted to one insertion
(chain.rs lines 421-430). -/
def ChainState.setLabel (c : ChainState) (address : Nat) (label : Nat) : ChainState :=
  { c with labels := minsert c.labels address label }

/-- `Chain::set_block_gas_limit` (chain.rs lines 432-440): reject below
the pending block's consumed gas before any mutation; otherwise update
the configured limit and the live remaining capacity. -/
def ChainState.setBlockGasLimit (c : ChainState) (gasLimit : Nat) :
    Except String Unit × ChainState :=
  if gasLimit < c.pendingGasUsed then
    (Except.error "Gas limit is lower than gas already used in pending block", c)
  else
    (Except.ok (),
      { c with
        blockGasLimit := gasLimit
        evmBlock := { c.evmBlock with gasLimit := gasLimit - c.pendingGasUsed } })

/-- `BlockEnum` from `enums.rs` as consumed by `Blocks::get_block`. -/
inductive BlockEnumM
  | int (n : Int)
  | latest
  | safe
  | finalized
  | pending
  | earliest
deriving DecidableEq, Repr

/-- `Blocks` from `blocks.rs` (lines 14-21), chain back-reference
dropped. -/
structure BlocksM where
  blocks : List BlockRec
  blocksStartIndex : Nat
  forkedBlocks : M BlockRec
  forkedBlock : Option Nat
deriving Repr

/-- `n as u64` / `n as usize` for an `i64`/`isize` value: two's
complement reinterpretation. -/
def i64AsU64 (n : Int) : Nat :=
  (n % ((2 : Int) ^ 64)).toNat

/-- The selector-to-number resolution of `Blocks::get_block`
(blocks.rs lines 58-83, `pending` handled separately).  A negative
integer selector is added to `last_block_number + 1` in wrapping u64
arithmetic with no upper-bound check. -/
def resolveBlockNumber (block : BlockEnumM) (lastBlockNumber : Nat) : Except String Nat :=
  match block with
  | .int n =>
      if n < 0 then Except.ok ((lastBlockNumber + 1 + i64AsU64 n) % 2 ^ 64)
      else if i64AsU64 n > lastBlockNumber then Except.error "Block number out of range"
      else Except.ok (i64AsU64 n)
  | .latest => Except.ok lastBlockNumber
  | .safe => Except.ok lastBlockNumber
  | .finalized => Except.ok lastBlockNumber
  | .earliest => Except.ok 0
  | .pending => Except.error "unreachable"

/-- The locally-mined-blocks lookup of `Blocks::get_block`
(blocks.rs lines 86-96 / 98-107). -/
def lookupLocalBlock (bm : BlocksM) (number : Nat) : Except String BlockRec :=
  if number < bm.blocksStartIndex then Except.error "Block already pruned"
  else
    match bm.blocks.get? (number - bm.blocksStartIndex) with
    | some b => Except.ok b
    | Option.none => Except.error "Block already pruned"

/-- `Blocks::get_block` (blocks.rs lines 51-148).  The remote fetch is
abstracted as `provider`; the source also memoizes a fetched block into
`forked_blocks`, which does not affect the returned value and is not
modelled. -/
def getBlockM (bm : BlocksM) (pendingEnv : BlockEnvM)
    (provider : Option (Nat → Option BlockRec)) (block : BlockEnumM) (lastBlockNumber : Nat) :
    Except String BlockRec :=
  match block with
  | .pending =>
      Except.ok { blockEnv := pendingEnv, blockHash := 0, journalIndex := Option.none }
  | _ =>
    match resolveBlockNumber block lastBlockNumber with
    | Except.error e => Except.error e
    | Except.ok number =>
      match bm.forkedBlock with
      | Option.none => lookupLocalBlock bm number
      | some forkedBlock =>
          if number > forkedBlock then lookupLocalBlock bm number
          else
            match mfind? bm.forkedBlocks number with
            | some b => Except.ok b
            | Option.none =>
                match provider with
                | some fetch =>
                    match fetch number with
                    | some b => Except.ok b
                    | Option.none => Except.error "Block not found"
                | Option.none => Except.error "Block not found"

/-- `Txs::__getitem__` (txs.rs lines 31-37): a negative index is added to
the length in `isize` arithmetic and the sum reinterpreted `as usize`. -/
def txsGetItem (txs : List TxRec) (index : Int) : Except String TxRec :=
  if index < 0 then
    match txs.get? (i64AsU64 ((txs.length : Int) + index)) with
    | some tx => Except.ok tx
    | Option.none => Except.error "index out of range"
  else
    match txs.get? index.toNat with
    | some tx => Except.ok tx
    | Option.none => Except.error "index out of range"

/-- A backing source whose `basic_ref` can fail (the `ForkDB` case,
where a remote RPC error surfaces as `DBError`). -/
structure ExtDBF where
  basicF : Nat → Except Unit (Option AccountInfo)

/-- `forked_account_or_new` over a fallible backing source. -/
def forkedAccountOrNewF (dbf : ExtDBF) (a : Nat) : Except Unit DbAccount :=
  match dbf.basicF a with
  | Except.error e => Except.error e
  | Except.ok (some info) =>
      Except.ok { info := info, accountState := .None, locallyCreated := false }
  | Except.ok Option.none => Except.ok DbAccount.newNotExisting

/-- `Database::basic` over a fallible backing source: the error
propagates before any caching mutation. -/
def basicMutF (dbf : ExtDBF) (s : Store) (address : Nat) :
    Except Unit (Option AccountInfo) × Store :=
  match findInLayers s.accounts address with
  | some d => (Except.ok d.infoOpt, s)
  | Option.none =>
      match forkedAccountOrNewF dbf address with
      | Except.error e => (Except.error e, s)
      | Except.ok basic =>
          (Except.ok basic.infoOpt,
            { s with accounts := layersUpdate s.accounts 0 (fun l => minsert l address basic) })

/-- The historical branch of `ChainInterface::get_code`
(chain_interface.rs lines 170-177): rollback, then `basic(address)?` -
the `?` returns out of the closure before `restore_rollback` runs - then
extract the code bytes and restore. -/
def getCodeAt (dbf : ExtDBF) (s : Store) (journalIndex : Nat) (address : Nat) :
    Except Unit (List Nat) × Store :=
  let rb := Store.rollback s journalIndex
  match basicMutF dbf rb.2 address with
  | (Except.error e, s2) => (Except.error e, s2)
  | (Except.ok info, s2) =>
      let code := (info.map (fun a => a.code.getD [])).getD []
      let s3 := Store.restoreRollback s2 rb.1
      (Except.ok code, s3)

/-- One write operation against the store, as enumerated by the
snapshot-round-trip claim: the four setters plus a committed diff. -/
inductive WriteOp
  | setBalance (address value : Nat)
  | setNonce (address nonce : Nat)
  | setCode (address : Nat) (code : List Nat)
  | setStorage (address index value : Nat)
  | commitDiff (changes : List (Nat × RevmAccount))

/-- Apply one write operation. -/
def applyWrite (s : Store) : WriteOp → Store
  | .setBalance a v => s.setBalance a v
  | .setNonce a n => s.setNonce a n
  | .setCode a c => s.setCode a c
  | .setStorage a i v => s.setStorage a i v
  | .commitDiff changes => s.commit changes

/-- Apply a sequence of write operations. -/
def applyWrites (s : Store) (ws : List WriteOp) : Store :=
  ws.foldl applyWrite s

/-- Layer 0 of the account stack (the backing-source memo cache). -/
def layer0 (s : Store) : M DbAccount :=
  (s.accounts.get? 0).getD []

/-- Layer 0 of the storage stack. -/
def stor0 (s : Store) : M (M Nat) :=
  (s.storage.get? 0).getD []

/-- The claimed invariant for one account record: a `NotExisting` record
holds zero balance, zero nonce and no code. -/
def GoodAcct (d : DbAccount) : Prop :=
  d.accountState = AccountState.NotExisting →
    d.info.balance = 0 ∧ d.info.nonce = 0 ∧ d.info.code = Option.none

/-- All records of one layer satisfy the invariant. -/
def GoodLayer (l : M DbAccount) : Prop :=
  ∀ p ∈ l, GoodAcct p.2

/-- A journal entry carries only invariant-satisfying account records. -/
def GoodEntry : JournalEntry → Prop
  | .accountChange _ (some d) => GoodAcct d
  | _ => True

/-- The invariant over the whole store: every layer and every journaled
account record. -/
def GoodStore (s : Store) : Prop :=
  (∀ l ∈ s.accounts, GoodLayer l) ∧ (∀ e ∈ s.journal, GoodEntry e)

/-- Store states reachable by any sequence of store operations: reads
(which populate caches), the four setters, `commit`, `snapshot`,
`revert_snapshot`, `rollback`, and `restore_rollback`.  `restore_rollback`
is admitted for any entry list whose account records satisfy the
invariant - a superset of the entry lists actually produced by
`rollback` on reachable stores (see `rollback_entries_good`), so proving
the invariant over `Reach` covers every real execution. -/
inductive Reach : Store → Prop
  | init (db : ExtDB) (n : Nat) : Reach (Store.new db n)
  | setBalance {s} (a v : Nat) : Reach s → Reach (s.setBalance a v)
  | setNonce {s} (a n : Nat) : Reach s → Reach (s.setNonce a n)
  | setCode {s} (a : Nat) (c : List Nat) : Reach s → Reach (s.setCode a c)
  | setStorage {s} (a i v : Nat) : Reach s → Reach (s.setStorage a i v)
  | commit {s} (changes : List (Nat × RevmAccount)) : Reach s → Reach (s.commit changes)
  | snapshot {s} : Reach s → Reach s.snapshot.2
  | revert {s} (id : Nat) : Reach s → Reach (s.revertSnapshot id).2
  | basic {s} (a : Nat) : Reach s → Reach (s.basicMut a).2
  | storageRead {s} (a i : Nat) : Reach s → Reach (s.storageMut a i).2
  | codeByHash {s} (h : Nat) : Reach s → Reach (s.codeByHashMut h).2
  | blockHash {s} (n : Nat) : Reach s → Reach (s.blockHashMut n).2
  | rollback {s} (j : Nat) : Reach s → Reach (s.rollback j).2
  | restore {s} (entries : List JournalEntry) (he : ∀ e ∈ entries, GoodEntry e) :
      Reach s → Reach (s.restoreRollback entries)

/-- Number of transaction records assigned to the mined block with the
given number. -/
def countMined (txs : List TxRec) (blockNumber : Nat) : Nat :=
  (txs.filter (fun t => t.block == BlockInfoM.mined blockNumber)).length

/-- Overwrite exactly the orchestrator-level configuration that the
chain-level-snapshot claim says is captured: default accounts, automine,
configured block gas limit, labels, pending-transaction list.  Models an
arbitrary sequence of the corresponding field setters between
`snapshot()` and `revert(id)`. -/
def overrideConfig (c : ChainState) (automine : Bool) (labels : M Nat)
    (dtx dcall dest dacc : Option Nat) (blockGasLimit : Nat) (pendingTxs : List Nat) :
    ChainState :=
  { c with
    automine := automine
    labels := labels
    defaultTxAccount := dtx
    defaultCallAccount := dcall
    defaultEstimateAccount := dest
    defaultAccessListAccount := dacc
    blockGasLimit := blockGasLimit
    pendingTxs := pendingTxs }

/-- A concrete freshly-connected local chain (one mined genesis block,
live env at block 1), used as witness input for the orchestration
claims. -/
def chainW : ChainState :=
  { automine := true
    blockGasLimit := 30000000
    labels := []
    defaultTxAccount := some 1
    defaultCallAccount := some 1
    defaultEstimateAccount := some 1
    defaultAccessListAccount := some 1
    latestBlockEnv := some { number := 0, timestamp := 99, gasLimit := 30000000 }
    snapshots := []
    pendingTxs := []
    pendingGasUsed := 0
    blocks := [{ blockEnv := { number := 0, timestamp := 99, gasLimit := 30000000 },
                 blockHash := 1, journalIndex := some 0 }]
    blocksStartIndex := 0
    cfg := 31337
    evmBlock := { number := 1, timestamp := 100, gasLimit := 30000000 }
    db := Store.new emptyDB 0
    txs := []
    rng := 1 }

/-- Concrete store for the snapshot-round-trip counterexample: a fresh
local store. -/
def storeC1 : Store := Store.new emptyDB 0

/-- The diff committed after the snapshot in the round-trip
counterexample: one touched account created with nonempty bytecode `[1]`
under code hash 5. -/
def diffC1 : List (Nat × RevmAccount) :=
  [(1, { info := { balance := 0, nonce := 1, codeHash := 5, code := some [1] }
         storage := []
         touched := true
         selfdestructed := false
         created := true })]

/-- Concrete store for the rollback/restore counterexample: bytecode `[1]`
under hash 5 whose insertion is journaled (exactly the state
`insert_contract` leaves behind). -/
def storeC2 : Store :=
  { Store.new emptyDB 0 with
    contracts := minsert (Store.new emptyDB 0).contracts 5 [1]
    journal := [JournalEntry.contractChange 5 Option.none] }

/-- `restore(rollback(0))` applied to `storeC2`. -/
def storeC2Restored : Store :=
  Store.restoreRollback (Store.rollback storeC2 0).2 (Store.rollback storeC2 0).1

/-- Concrete store for the restore-on-error claim: one journaled entry. -/
def storeC4 : Store :=
  { Store.new emptyDB 0 with journal := [JournalEntry.accountChange 1 Option.none] }

/-- A backing source whose `basic_ref` fails (remote RPC failure). -/
def dbfC4 : ExtDBF := { basicF := fun _ => Except.error () }

/-- Concrete store for the block-hash-window counterexample: last block
number 300 with a nonzero cached hash for block 44 = 300 - 256. -/
def storeC6 : Store :=
  { Store.new emptyDB 300 with blockHashes := [(44, 99)] }

/-- Concrete pre-snapshot store for the selfdestruct witness: a fresh
local store where address 7 holds balance 100 and storage slot 3 = 42. -/
def storeC3 : Store :=
  Store.setStorage (Store.setBalance (Store.new emptyDB 0) 7 100) 7 3 42

/-- A touched, selfdestructed diff entry for the selfdestruct witness. -/
def acctSD : RevmAccount :=
  { info := AccountInfo.default, storage := [], touched := true,
    selfdestructed := true, created := false }

/-- Relation maintained between the pre-snapshot store `O` and the store
`C` reached from `snapshot O` by any sequence of write operations: the
middle layers and all storage layers below the top are untouched; layer 0
may gain backing-source cache fills (for addresses absent from every
layer of `O`); the snapshot-index stack gained exactly the one boundary;
the journal only grew. -/
def WInv (O C : Store) : Prop :=
  C.accounts.length = O.accounts.length + 1 ∧
  C.storage.length = O.storage.length + 1 ∧
  (∀ i, 1 ≤ i → i < O.accounts.length → C.accounts.get? i = O.accounts.get? i) ∧
  (∀ i, i < O.storage.length → C.storage.get? i = O.storage.get? i) ∧
  (∀ a, mfind? (layer0 C) a = mfind? (layer0 O) a ∨
    (findInLayers O.accounts a = Option.none ∧
     mfind? (layer0 C) a = some (forkedAccountOrNew O a))) ∧
  C.snapshotJournalIndexes = O.snapshotJournalIndexes ++ [O.journal.length] ∧
  C.journal.take O.journal.length = O.journal ∧
  C.db = O.db

theorem mfind?_minsert {β : Type} (m : M β) (a b : Nat) (v : β) :
    mfind? (minsert m a v) b = if a = b then some v else mfind? m b := by
  induction m with
  | nil =>
      by_cases h : a = b <;> simp [minsert, mfind?, h]
  | cons p t ih =>
      obtain ⟨k, w⟩ := p
      by_cases hk : k = a
      · subst hk
        by_cases h : k = b <;> simp [minsert, mfind?, h]
      · by_cases h : k = b
        · subst h
          have hab : a ≠ k := fun hh => hk hh.symm
          simp [minsert, mfind?, hk, hab]
        · simp [minsert, mfind?, hk, h, ih]

theorem mfind?_eq_some_mem {β : Type} {m : M β} {a : Nat} {v : β}
    (h : mfind? m a = some v) : (a, v) ∈ m := by
  induction m with
  | nil => simp [mfind?] at h
  | cons p t ih =>
      obtain ⟨k, w⟩ := p
      by_cases hk : k = a
      · subst hk
        simp [mfind?] at h
        simp [h]
      · simp [mfind?, hk] at h
        exact List.mem_cons_of_mem _ (ih h)

theorem mem_minsert {β : Type} {m : M β} {a : Nat} {v : β} {p : Nat × β}
    (h : p ∈ minsert m a v) : p ∈ m ∨ p = (a, v) := by
  induction m with
  | nil => simp [minsert] at h; simp [h]
  | cons q t ih =>
      obtain ⟨k, w⟩ := q
      by_cases hk : k = a
      · subst hk
        simp [minsert] at h
        rcases h with h | h
        · right; simp [h]
        · left; exact List.mem_cons_of_mem _ h
      · simp [minsert, hk] at h
        rcases h with h | h
        · left; simp [h]
        · rcases ih h with h | h
          · left; exact List.mem_cons_of_mem _ h
          · right; exact h

theorem mem_mremove {β : Type} {m : M β} {a : Nat} {p : Nat × β}
    (h : p ∈ mremove m a) : p ∈ m := by
  induction m with
  | nil => simp [mremove] at h
  | cons q t ih =>
      obtain ⟨k, w⟩ := q
      by_cases hk : k = a
      · subst hk
        simp [mremove] at h
        exact List.mem_cons_of_mem _ h
      · simp [mremove, hk] at h
        rcases h with h | h
        · simp [h]
        · exact List.mem_cons_of_mem _ (ih h)

theorem layersUpdate_length {α : Type} (ls : List α) (i : Nat) (f : α → α) :
    (layersUpdate ls i f).length = ls.length := by
  induction ls generalizing i with
  | nil => rfl
  | cons x t ih =>
      cases i with
      | zero => rfl
      | succ i => simp [layersUpdate, ih]

theorem layersUpdate_get?_ne {α : Type} (ls : List α) (i j : Nat) (f : α → α) (h : j ≠ i) :
    (layersUpdate ls i f).get? j = ls.get? j := by
  induction ls generalizing i j with
  | nil => rfl
  | cons x t ih =>
      cases i with
      | zero =>
          cases j with
          | zero => exact absurd rfl h
          | succ j => rfl
      | succ i =>
          cases j with
          | zero => rfl
          | succ j =>
              show (layersUpdate t i f).get? j = t.get? j
              exact ih i j (by omega)

theorem layersUpdate_get?_self {α : Type} (ls : List α) (i : Nat) (f : α → α) :
    (layersUpdate ls i f).get? i = (ls.get? i).map f := by
  induction ls generalizing i with
  | nil => rfl
  | cons x t ih =>
      cases i with
      | zero => rfl
      | succ i => simpa [layersUpdate] using ih i

theorem mem_layersUpdate {α : Type} {ls : List α} {i : Nat} {f : α → α} {x : α}
    (h : x ∈ layersUpdate ls i f) : x ∈ ls ∨ ∃ y ∈ ls, x = f y := by
  induction ls generalizing i with
  | nil => simp [layersUpdate] at h
  | cons z t ih =>
      cases i with
      | zero =>
          simp [layersUpdate] at h
          rcases h with h | h
          · right; exact ⟨z, List.mem_cons_self _ _, h⟩
          · left; exact List.mem_cons_of_mem _ h
      | succ i =>
          simp [layersUpdate] at h
          rcases h with h | h
          · left; simp [h]
          · rcases ih h with h | ⟨y, hy, hxy⟩
            · left; exact List.mem_cons_of_mem _ h
            · right; exact ⟨y, List.mem_cons_of_mem _ hy, hxy⟩

theorem findInLayers_eq_none {layers : List (M DbAccount)} {a : Nat} :
    findInLayers layers a = Option.none ↔ ∀ l ∈ layers, mfind? l a = Option.none := by
  unfold findInLayers
  rw [List.findSome?_eq_none_iff]
  constructor
  · intro h l hl
    exact h l (List.mem_reverse.mpr hl)
  · intro h l hl
    exact h l (List.mem_reverse.mp hl)

/-- **C2**: on `storeC2` - a store whose journal holds the
`ContractChange(5, None)` entry that `insert_contract` records when it
caches bytecode `[1]` under hash 5 - `restore_rollback(rollback(0))`
restores the journal but removes the bytecode from the content-addressed
`contracts` table instead of re-inserting it
(`rollback_journal_entry`'s `ContractChange` arm ignores its payload and
always removes), so the claimed identity fails. -/
theorem c2_restore_rollback_drops_bytecode :
    mfind? storeC2.contracts 5 = some [1] ∧
    storeC2Restored.journal = storeC2.journal ∧
    mfind? storeC2Restored.contracts 5 = Option.none := by
  exact ⟨rfl, rfl, rfl⟩

/-- **C4**: in the historical branch of `ChainInterface::get_code`, the
`?` on `basic(address)` fires before `restore_rollback`: on `storeC4`
(one journaled entry) with a failing backing source, the query at journal
index 0 returns the error with the store still rolled back - its journal
is empty although it held one entry before the query - so the
restore-before-error guarantee does not hold for `get_code`. -/
theorem c4_get_code_error_skips_restore :
    (getCodeAt dbfC4 storeC4 0 9).1 = Except.error () ∧
    (getCodeAt dbfC4 storeC4 0 9).2.journal = [] ∧
    storeC4.journal = [JournalEntry.accountChange 1 Option.none] := by
  exact ⟨rfl, rfl, rfl⟩

/-- **C6 (counterexample)**: with last block number 300, the block number
44 = 300 - 256 lies outside the claimed window [45, 300], yet
`block_hash_ref` returns its cached nonzero hash 99 (the source tests
`number < last - 256`, not `number < last - 255`). -/
theorem c6_window_counterexample :
    storeC6.lastBlockNumber = 300 ∧
    44 < storeC6.lastBlockNumber - 255 ∧
    Store.blockHashRef storeC6 44 = 99 := by
  exact ⟨rfl, by decide, rfl⟩

/-- **C6 (amended)**: `block_hash(n)` returns zero for `n` outside
`[L-256, L]` (a 257-wide window); when `L < 256` the u64 lower bound
wraps around and every query returns zero; inside the window the cached
hash (falling back to the backing source) is returned; and repeated
queries of the same number return the identical value. -/
theorem c6_block_hash_window (s : Store) (n : Nat) :
    (s.lastBlockNumber < 256 → Store.blockHashRef s n = 0) ∧
    (256 ≤ s.lastBlockNumber → s.lastBlockNumber < 2 ^ 64 →
      ((s.lastBlockNumber < n ∨ n < s.lastBlockNumber - 256) → Store.blockHashRef s n = 0) ∧
      (s.lastBlockNumber - 256 ≤ n → n ≤ s.lastBlockNumber →
        Store.blockHashRef s n = (mfind? s.blockHashes n).getD (s.db.blockHash n))) ∧
    (Store.blockHashMut (Store.blockHashMut s n).2 n).1 = (Store.blockHashMut s n).1 := by
  refine ⟨?_, ?_, ?_⟩
  · intro h
    unfold Store.blockHashRef
    rw [if_pos]
    unfold sub64
    omega
  · intro h256 h64
    have hsub : sub64 s.lastBlockNumber 256 = s.lastBlockNumber - 256 := by
      unfold sub64; omega
    constructor
    · intro h
      unfold Store.blockHashRef
      rw [if_pos]
      omega
    · intro h1 h2
      unfold Store.blockHashRef
      rw [if_neg (by omega)]
      cases hb : mfind? s.blockHashes n <;> simp [hb]
  · by_cases hc : n > s.lastBlockNumber ∨ n < sub64 s.lastBlockNumber 256
    · have h1 : Store.blockHashMut s n = (0, s) := by
        unfold Store.blockHashMut
        rw [if_pos hc]
      simp [h1]
    · cases hb : mfind? s.blockHashes n with
      | some hash =>
          have h1 : Store.blockHashMut s n = (hash, s) := by
            unfold Store.blockHashMut
            rw [if_neg hc]
            simp [hb]
          simp [h1]
      | none =>
          have h1 : Store.blockHashMut s n = (s.db.blockHash n,
              { s with blockHashes := minsert s.blockHashes n (s.db.blockHash n) }) := by
            unfold Store.blockHashMut
            rw [if_neg hc]
            simp [hb]
          rw [h1]
          simp [Store.blockHashMut, hc, mfind?_minsert]

/-- Witness for `c6_block_hash_window` at `storeC6` and `n = 260`. -/
theorem c6_block_hash_window_witness :
    256 ≤ storeC6.lastBlockNumber ∧ storeC6.lastBlockNumber < 2 ^ 64 ∧
    storeC6.lastBlockNumber - 256 ≤ 260 ∧ 260 ≤ storeC6.lastBlockNumber ∧
    Store.blockHashRef storeC6 260 =
      (mfind? storeC6.blockHashes 260).getD (storeC6.db.blockHash 260) := by
  refine ⟨by decide, by norm_num [storeC6, Store.new], by decide, by decide, ?_⟩
  exact (((c6_block_hash_window storeC6 260).2.1 (by decide)
    (by norm_num [storeC6, Store.new])).2 (by decide) (by decide))

/-- **C7 (counterexample)**: flipping `automine` between `snapshot()` and
`revert(id)` is not undone by the revert: `Chain::snapshot` captures only
`(cfg_env, block_env)` plus the store snapshot, so the claim's list of
captured orchestrator configuration fails on the automine flag. -/
theorem c7_automine_not_restored :
    chainW.automine = true ∧
    (ChainState.revertChain
      (ChainState.setAutomine (ChainState.snapshotChain chainW).2 false)
      (ChainState.snapshotChain chainW).1).automine = false := by
  exact ⟨rfl, rfl⟩

/-- **C7 (amended)**: `snapshot()` captures (and `revert(id)` restores)
the EVM configuration env and the pending block env, together with the
layered-store snapshot; the default accounts, automine flag, configured
block gas limit, address labels and pending-transaction list are *not*
captured - after arbitrary changes to them, `revert(id)` leaves them at
their changed values while restoring `cfg` and the block env. -/
theorem c7_snapshot_scope (c : ChainState) (am : Bool) (lb : M Nat)
    (d1 d2 d3 d4 : Option Nat) (bgl : Nat) (pt : List Nat)
    (hsync : c.db.accounts.length = c.snapshots.length + 2) :
    ((overrideConfig (ChainState.snapshotChain c).2 am lb d1 d2 d3 d4 bgl pt).revertChain
        (ChainState.snapshotChain c).1).cfg = c.cfg ∧
    ((overrideConfig (ChainState.snapshotChain c).2 am lb d1 d2 d3 d4 bgl pt).revertChain
        (ChainState.snapshotChain c).1).evmBlock = c.evmBlock ∧
    ((overrideConfig (ChainState.snapshotChain c).2 am lb d1 d2 d3 d4 bgl pt).revertChain
        (ChainState.snapshotChain c).1).automine = am ∧
    ((overrideConfig (ChainState.snapshotChain c).2 am lb d1 d2 d3 d4 bgl pt).revertChain
        (ChainState.snapshotChain c).1).labels = lb ∧
    ((overrideConfig (ChainState.snapshotChain c).2 am lb d1 d2 d3 d4 bgl pt).revertChain
        (ChainState.snapshotChain c).1).defaultTxAccount = d1 ∧
    ((overrideConfig (ChainState.snapshotChain c).2 am lb d1 d2 d3 d4 bgl pt).revertChain
        (ChainState.snapshotChain c).1).defaultCallAccount = d2 ∧
    ((overrideConfig (ChainState.snapshotChain c).2 am lb d1 d2 d3 d4 bgl pt).revertChain
        (ChainState.snapshotChain c).1).defaultEstimateAccount = d3 ∧
    ((overrideConfig (ChainState.snapshotChain c).2 am lb d1 d2 d3 d4 bgl pt).revertChain
        (ChainState.snapshotChain c).1).defaultAccessListAccount = d4 ∧
    ((overrideConfig (ChainState.snapshotChain c).2 am lb d1 d2 d3 d4 bgl pt).revertChain
        (ChainState.snapshotChain c).1).blockGasLimit = bgl ∧
    ((overrideConfig (ChainState.snapshotChain c).2 am lb d1 d2 d3 d4 bgl pt).revertChain
        (ChainState.snapshotChain c).1).pendingTxs = pt := by
  have hid : (ChainState.snapshotChain c).1 = c.snapshots.length + 1 := by
    simp [ChainState.snapshotChain, Store.snapshot]
    omega
  have hsnaps : (overrideConfig (ChainState.snapshotChain c).2 am lb d1 d2 d3 d4 bgl pt).snapshots
      = c.snapshots ++ [(c.cfg, c.evmBlock)] := by
    simp [ChainState.snapshotChain, overrideConfig, Store.snapshot]
  have htake : (c.snapshots ++ [(c.cfg, c.evmBlock)]).take (c.snapshots.length + 1)
      = c.snapshots ++ [(c.cfg, c.evmBlock)] :=
    List.take_of_length_le (by simp)
  unfold ChainState.revertChain
  rw [hid, hsnaps, htake]
  simp [overrideConfig, ChainState.snapshotChain, List.getLast?_concat]

/-- Witness for `c7_snapshot_scope` at the concrete chain `chainW`. -/
theorem c7_snapshot_scope_witness :
    chainW.db.accounts.length = chainW.snapshots.length + 2 ∧
    ((overrideConfig (ChainState.snapshotChain chainW).2 false [] Option.none Option.none
        Option.none Option.none 7 []).revertChain
        (ChainState.snapshotChain chainW).1).automine = false := by
  exact ⟨rfl, (c7_snapshot_scope chainW false [] Option.none Option.none Option.none
    Option.none 7 [] rfl).2.2.1⟩

/-- **C8**: `set_block_gas_limit(n)` errors - mutating nothing - exactly
when `n` is below the pending block's consumed gas; otherwise it sets the
configured limit to `n` and the live remaining capacity to
`n - pending_gas_used`. -/
theorem c8_set_block_gas_limit (c : ChainState) (n : Nat) :
    (n < c.pendingGasUsed →
      (∃ e, (c.setBlockGasLimit n).1 = Except.error e) ∧ (c.setBlockGasLimit n).2 = c) ∧
    (c.pendingGasUsed ≤ n →
      (c.setBlockGasLimit n).1 = Except.ok () ∧
      (c.setBlockGasLimit n).2.blockGasLimit = n ∧
      (c.setBlockGasLimit n).2.evmBlock.gasLimit = n - c.pendingGasUsed) := by
  constructor
  · intro h
    unfold ChainState.setBlockGasLimit
    rw [if_pos h]
    exact ⟨⟨_, rfl⟩, rfl⟩
  · intro h
    unfold ChainState.setBlockGasLimit
    rw [if_neg (by omega)]
    exact ⟨rfl, rfl, rfl⟩

/-- **C10**: a negative block selector `n` with `|n| > last + 1` wraps to
a u64 position beyond every retained block, so `Blocks::get_block`
returns a pruned/out-of-range error and never a block (on both local and
forked ledgers, with any provider); likewise a negative transaction
index `i` with `|i| > txs.len()` wraps to a huge `usize`, and
`Txs::__getitem__` returns an index error. -/
theorem c10_negative_index_totality
    (bm : BlocksM) (pendingEnv : BlockEnvM) (provider : Option (Nat → Option BlockRec))
    (lastBlockNumber : Nat) (n : Int) (txs : List TxRec) (i : Int)
    (hlast : lastBlockNumber < 2 ^ 63)
    (hinv : bm.blocksStartIndex + bm.blocks.length ≤ lastBlockNumber + 1)
    (hfb : ∀ fb, bm.forkedBlock = some fb → fb ≤ lastBlockNumber)
    (hn : -(2 ^ 63) ≤ n) (hnr : (lastBlockNumber : Int) + 1 < -n) :
    (∃ e, getBlockM bm pendingEnv provider (BlockEnumM.int n) lastBlockNumber = Except.error e) ∧
    (txs.length < 2 ^ 63 → -(2 ^ 63) ≤ i → (txs.length : Int) < -i →
      ∃ e, txsGetItem txs i = Except.error e) := by
  constructor
  · have hn0 : n < 0 := by omega
    have hm1 : 2 ^ 63 ≤ i64AsU64 n := by
      unfold i64AsU64
      omega
    have hm2 : lastBlockNumber + 1 + i64AsU64 n < 2 ^ 64 := by
      unfold i64AsU64
      omega
    have hnum : (lastBlockNumber + 1 + i64AsU64 n) % 2 ^ 64 = lastBlockNumber + 1 + i64AsU64 n :=
      Nat.mod_eq_of_lt hm2
    have hres : resolveBlockNumber (BlockEnumM.int n) lastBlockNumber
        = Except.ok (lastBlockNumber + 1 + i64AsU64 n) := by
      simp only [resolveBlockNumber]
      rw [if_pos hn0, hnum]
    have hlocal : lookupLocalBlock bm (lastBlockNumber + 1 + i64AsU64 n)
        = Except.error "Block already pruned" := by
      unfold lookupLocalBlock
      rw [if_neg (by omega), List.get?_eq_none.mpr (by omega)]
    refine ⟨"Block already pruned", ?_⟩
    simp only [getBlockM, hres]
    cases hfbv : bm.forkedBlock with
    | none => simp only [hfbv, hlocal]
    | some fb =>
        have hfble : fb ≤ lastBlockNumber := hfb fb hfbv
        simp only [hfbv]
        rw [if_pos (by omega), hlocal]
  · intro hlen hi hir
    have hi0 : i < 0 := by omega
    have hpos : 2 ^ 63 ≤ i64AsU64 ((txs.length : Int) + i) := by
      unfold i64AsU64
      omega
    refine ⟨"index out of range", ?_⟩
    unfold txsGetItem
    rw [if_pos hi0, List.get?_eq_none.mpr (by omega)]

/-- Witness for `c10_negative_index_totality`: a one-block local ledger
with `last = 1`, selector `-5`, and a one-transaction list with index
`-3`. -/
theorem c10_negative_index_totality_witness :
    (1 : Nat) < 2 ^ 63 ∧
    (∃ e, getBlockM
        { blocks := [{ blockEnv := { number := 0, timestamp := 99, gasLimit := 30000000 },
                       blockHash := 1, journalIndex := some 0 }]
          blocksStartIndex := 0, forkedBlocks := [], forkedBlock := Option.none }
        { number := 1, timestamp := 100, gasLimit := 30000000 }
        Option.none (BlockEnumM.int (-5)) 1 = Except.error e) ∧
    (∃ e, txsGetItem [{ block := BlockInfoM.mined 0, journalIndex := 0, gasUsed := 0 }] (-3)
        = Except.error e) := by
  have h := c10_negative_index_totality
    { blocks := [{ blockEnv := { number := 0, timestamp := 99, gasLimit := 30000000 },
                   blockHash := 1, journalIndex := some 0 }]
      blocksStartIndex := 0, forkedBlocks := [], forkedBlock := Option.none }
    { number := 1, timestamp := 100, gasLimit := 30000000 }
    Option.none 1 (-5) [{ block := BlockInfoM.mined 0, journalIndex := 0, gasUsed := 0 }] (-3)
    (by norm_num) (by norm_num) (by intro fb hfb; cases hfb) (by norm_num) (by norm_num)
  exact ⟨by norm_num, h.1, h.2 (by norm_num) (by norm_num) (by norm_num)⟩

theorem transact_automine_spec (c : ChainState) (d : List (Nat × RevmAccount)) (g : Nat)
    (hA : c.automine = true) (hP : c.pendingTxs = []) :
    (c.transact d g).automine = true ∧
    (c.transact d g).pendingTxs = [] ∧
    (c.transact d g).blocks.length = c.blocks.length + 1 ∧
    (c.transact d g).txs = c.txs ++ [{ block := BlockInfoM.mined c.evmBlock.number, journalIndex := c.db.journal.length, gasUsed := g }] ∧
    (c.transact d g).evmBlock.number = c.evmBlock.number + 1 := by
  unfold ChainState.transact ChainState.mine
  simp [hA, hP]

theorem transact_noautomine_spec (c : ChainState) (d : List (Nat × RevmAccount)) (g : Nat)
    (hA : c.automine = false) :
    (c.transact d g).automine = false ∧
    (c.transact d g).blocks = c.blocks ∧
    (c.transact d g).evmBlock.number = c.evmBlock.number ∧
    (c.transact d g).pendingTxs = c.pendingTxs ++ [c.txs.length] ∧
    (∃ benv, (c.transact d g).txs = c.txs ++
      [{ block := BlockInfoM.pending benv, journalIndex := c.db.journal.length, gasUsed := g }]) := by
  unfold ChainState.transact ChainState.mine
  simp [hA]

theorem transactSeq_automine (c : ChainState) (inputs : List (List (Nat × RevmAccount) × Nat))
    (hA : c.automine = true) (hP : c.pendingTxs = []) :
    (c.transactSeq inputs).automine = true ∧
    (c.transactSeq inputs).pendingTxs = [] ∧
    (c.transactSeq inputs).blocks.length = c.blocks.length + inputs.length ∧
    (c.transactSeq inputs).evmBlock.number = c.evmBlock.number + inputs.length ∧
    ∃ newTxs, (c.transactSeq inputs).txs = c.txs ++ newTxs ∧
      newTxs.map (fun t => t.block)
        = (List.range inputs.length).map (fun k => BlockInfoM.mined (c.evmBlock.number + k)) := by
  induction inputs generalizing c with
  | nil =>
      exact ⟨hA, hP, by simp [ChainState.transactSeq], by simp [ChainState.transactSeq],
        [], by simp [ChainState.transactSeq], by simp⟩
  | cons input rest ih =>
      obtain ⟨d, g⟩ := input
      obtain ⟨h1, h2, h3, h4, h5⟩ := transact_automine_spec c d g hA hP
      obtain ⟨i1, i2, i3, i4, i5, i6, i7⟩ := ih (c.transact d g) h1 h2
      have hseq : c.transactSeq ((d, g) :: rest) = (c.transact d g).transactSeq rest := rfl
      refine ⟨by rw [hseq]; exact i1, by rw [hseq]; exact i2, ?_, ?_, ?_⟩
      · rw [hseq, i3, h3]
        simp [Nat.add_assoc, Nat.add_comm 1 rest.length]
      · rw [hseq, i4, h5]
        simp [Nat.add_assoc, Nat.add_comm 1 rest.length]
      · refine ⟨{ block := BlockInfoM.mined c.evmBlock.number, journalIndex := c.db.journal.length, gasUsed := g } :: i5, ?_, ?_⟩
        · rw [hseq, i6, h4]
          simp
        · simp only [List.map_cons, i7, h5, List.length_cons]
          rw [List.range_succ_eq_map]
          simp only [List.map_cons, List.map_map]
          congr 1
          apply List.map_congr_left
          intro a ha
          simp only [Function.comp_apply]
          congr 1
          omega

theorem transactSeq_noautomine (c : ChainState) (inputs : List (List (Nat × RevmAccount) × Nat))
    (hA : c.automine = false) :
    (c.transactSeq inputs).automine = false ∧
    (c.transactSeq inputs).blocks = c.blocks ∧
    (c.transactSeq inputs).evmBlock.number = c.evmBlock.number ∧
    (c.transactSeq inputs).pendingTxs = c.pendingTxs ++ List.range' c.txs.length inputs.length ∧
    ∃ newTxs, (c.transactSeq inputs).txs = c.txs ++ newTxs ∧
      newTxs.length = inputs.length ∧
      ∀ t ∈ newTxs, ∀ nb, t.block ≠ BlockInfoM.mined nb := by
  induction inputs generalizing c with
  | nil =>
      exact ⟨hA, rfl, rfl, by simp [ChainState.transactSeq], [], by simp [ChainState.transactSeq],
        rfl, by simp⟩
  | cons input rest ih =>
      obtain ⟨d, g⟩ := input
      obtain ⟨h1, h2, h3, h4, benv, h5⟩ := transact_noautomine_spec c d g hA
      obtain ⟨i1, i2, i3, i4, newTxs, i5, i6, i7⟩ := ih (c.transact d g) h1
      have hseq : c.transactSeq ((d, g) :: rest) = (c.transact d g).transactSeq rest := rfl
      have hlen : (c.transact d g).txs.length = c.txs.length + 1 := by rw [h5]; simp
      refine ⟨by rw [hseq]; exact i1, by rw [hseq, i2, h2], by rw [hseq, i3, h3], ?_, ?_⟩
      · rw [hseq, i4, h4, hlen]
        simp [List.range'_succ, List.append_assoc]
      · refine ⟨{ block := BlockInfoM.pending benv, journalIndex := c.db.journal.length, gasUsed := g } :: newTxs, ?_, by simp [i6], ?_⟩
        · rw [hseq, i5, h5]
          simp
        · intro t ht nb
          rcases List.mem_cons.mp ht with h | h
          · subst h
            simp
          · exact i7 t h nb

theorem layersUpdate_append_at_length {α : Type} (old : List α) (t : α) (rest : List α)
    (f : α → α) :
    layersUpdate (old ++ t :: rest) old.length f = old ++ f t :: rest := by
  induction old with
  | nil => rfl
  | cons x xs ih =>
      simp only [List.cons_append, List.length_cons]
      show x :: layersUpdate (xs ++ t :: rest) xs.length f = x :: (xs ++ f t :: rest)
      rw [ih]

theorem foldl_assign_range (old : List TxRec) (newTxs : List TxRec) (nb : Nat) :
    (List.range' old.length newTxs.length).foldl (fun txs i =>
        layersUpdate txs i (fun t => { t with block := BlockInfoM.mined nb })) (old ++ newTxs)
      = old ++ newTxs.map (fun t => { t with block := BlockInfoM.mined nb }) := by
  induction newTxs generalizing old with
  | nil => simp
  | cons t rest ih =>
      rw [List.length_cons, List.range'_succ, List.foldl_cons,
        layersUpdate_append_at_length]
      have : old ++ { t with block := BlockInfoM.mined nb } :: rest
          = (old ++ [{ t with block := BlockInfoM.mined nb }]) ++ rest := by simp
      rw [this]
      have hlen : (old ++ [{ t with block := BlockInfoM.mined nb }]).length = old.length + 1 := by
        simp
      rw [← hlen, ih]
      simp

theorem countMined_append (xs ys : List TxRec) (nb : Nat) :
    countMined (xs ++ ys) nb = countMined xs nb + countMined ys nb := by
  unfold countMined
  rw [List.filter_append, List.length_append]

theorem countMined_eq_zero (xs : List TxRec) (nb : Nat)
    (h : ∀ t ∈ xs, t.block ≠ BlockInfoM.mined nb) : countMined xs nb = 0 := by
  unfold countMined
  rw [List.length_eq_zero, List.filter_eq_nil]
  intro t ht
  simpa using h t ht

/-- **C5**: starting from a connected chain with no pending transactions
(and all prior transactions mined into earlier blocks): with
`automine = true`, N sequential `transact` calls mine exactly N blocks,
each containing exactly one transaction; with `automine = false`, N
`transact` calls mine zero blocks, and a following `mine(force=true)`
mines exactly one block to which all N transactions are assigned. -/
theorem c5_automine_cardinality (c : ChainState)
    (inputs : List (List (Nat × RevmAccount) × Nat))
    (hP : c.pendingTxs = [])
    (hOld : ∀ t ∈ c.txs, ∀ nb, t.block = BlockInfoM.mined nb → nb < c.evmBlock.number) :
    (c.automine = true →
      (c.transactSeq inputs).blocks.length = c.blocks.length + inputs.length ∧
      ∀ k < inputs.length,
        countMined (c.transactSeq inputs).txs (c.evmBlock.number + k) = 1) ∧
    (c.automine = false →
      (c.transactSeq inputs).blocks = c.blocks ∧
      ((c.transactSeq inputs).mine true).2.blocks.length = c.blocks.length + 1 ∧
      countMined ((c.transactSeq inputs).mine true).2.txs c.evmBlock.number = inputs.length) := by
  constructor
  · intro hA
    obtain ⟨_, _, h3, _, newTxs, h6, h7⟩ := transactSeq_automine c inputs hA hP
    refine ⟨h3, ?_⟩
    intro k hk
    rw [h6, countMined_append]
    have hold0 : countMined c.txs (c.evmBlock.number + k) = 0 := by
      apply countMined_eq_zero
      intro t ht heq
      have := hOld t ht (c.evmBlock.number + k) heq
      omega
    have hnew : countMined newTxs (c.evmBlock.number + k) = 1 := by
      unfold countMined
      have hfm : (newTxs.filter (fun t => t.block == BlockInfoM.mined (c.evmBlock.number + k))).length
          = ((newTxs.map (fun t => t.block)).filter
              (fun b => b == BlockInfoM.mined (c.evmBlock.number + k))).length := by
        rw [List.filter_map]
        simp only [List.length_map]
        rfl
      rw [hfm, h7, List.filter_map]
      simp only [List.length_map]
      have hfr : ((List.range inputs.length).filter
          (fun x => BlockInfoM.mined (c.evmBlock.number + x)
            == BlockInfoM.mined (c.evmBlock.number + k))) = [k] := by
        have : ∀ x, (BlockInfoM.mined (c.evmBlock.number + x)
            == BlockInfoM.mined (c.evmBlock.number + k)) = (x == k) := by
          intro x
          by_cases hx : x = k
          · simp [hx]
          · have : c.evmBlock.number + x ≠ c.evmBlock.number + k := by omega
            simp [hx, this]
        rw [List.filter_congr (fun x _ => this x)]
        rw [List.filter_beq]
        rw [List.count_eq_one_of_mem (List.nodup_range _) (List.mem_range.mpr hk)]
        simp
      show (List.filter (fun x => BlockInfoM.mined (c.evmBlock.number + x)
          == BlockInfoM.mined (c.evmBlock.number + k)) (List.range inputs.length)).length = 1
      rw [hfr]
      rfl
    rw [hold0, hnew]
  · intro hA
    obtain ⟨_, h2, h3, h4, newTxs, h5, h6, h7⟩ := transactSeq_noautomine c inputs hA
    rw [hP] at h4
    simp only [List.nil_append] at h4
    refine ⟨h2, ?_, ?_⟩
    · unfold ChainState.mine
      simp [h2]
    · unfold ChainState.mine
      simp only [hA]
      rw [if_neg (by simp)]
      simp only [h4, h5, ← h6]
      rw [foldl_assign_range]
      rw [countMined_append]
      have hold0 : countMined c.txs c.evmBlock.number = 0 := by
        apply countMined_eq_zero
        intro t ht heq
        have := hOld t ht c.evmBlock.number heq
        omega
      have hnew : countMined (newTxs.map
          (fun t => { t with block := BlockInfoM.mined ((c.transactSeq inputs).evmBlock.number) }))
          c.evmBlock.number = newTxs.length := by
        unfold countMined
        rw [h3]
        have : ∀ t ∈ newTxs.map
            (fun t => { t with block := BlockInfoM.mined c.evmBlock.number }),
            (t.block == BlockInfoM.mined c.evmBlock.number) = true := by
          intro t ht
          obtain ⟨u, _, hu⟩ := List.mem_map.mp ht
          subst hu
          simp
        rw [List.filter_eq_self.mpr this]
        simp
      rw [hold0, hnew, h6]
      omega

/-- Witness for `c5_automine_cardinality`: two transactions on the
concrete chain `chainW`, in both automine modes. -/
theorem c5_automine_cardinality_witness :
    (chainW.transactSeq [([], 21000), ([], 21000)]).blocks.length = chainW.blocks.length + 2 ∧
    countMined (chainW.transactSeq [([], 21000), ([], 21000)]).txs (chainW.evmBlock.number + 1)
      = 1 ∧
    (({ chainW with automine := false } : ChainState).transactSeq
        [([], 21000), ([], 21000)]).blocks = ({ chainW with automine := false } : ChainState).blocks ∧
    countMined (((({ chainW with automine := false } : ChainState).transactSeq
        [([], 21000), ([], 21000)]).mine true)).2.txs
        ({ chainW with automine := false } : ChainState).evmBlock.number = 2 := by
  have h1 := c5_automine_cardinality chainW [([], 21000), ([], 21000)] rfl
    (by intro t ht; simp [chainW] at ht)
  have h2 := c5_automine_cardinality ({ chainW with automine := false } : ChainState)
    [([], 21000), ([], 21000)] rfl (by intro t ht; simp [chainW] at ht)
  exact ⟨(h1.1 rfl).1, (h1.1 rfl).2 1 (by norm_num), (h2.2 rfl).1, (h2.2 rfl).2.2⟩

theorem winv_journal_append (O C : Store) (tl : List JournalEntry) (h : WInv O C) :
    WInv O { C with journal := C.journal ++ tl } := by
  obtain ⟨h1, h2, h3, h4, h5, h6, h7, h8⟩ := h
  refine ⟨h1, h2, h3, h4, h5, h6, ?_, h8⟩
  have hlen : O.journal.length ≤ C.journal.length := by
    have := congrArg List.length h7
    simp [List.length_take] at this
    omega
  rw [List.take_append_of_le_length hlen]
  exact h7

theorem winv_contracts (O C : Store) (m : M (List Nat)) (h : WInv O C) :
    WInv O { C with contracts := m } := h

theorem winv_updateLast_accounts (O C : Store) (f : M DbAccount → M DbAccount)
    (hO : 2 ≤ O.accounts.length) (h : WInv O C) :
    WInv O { C with accounts := updateLast C.accounts f } := by
  obtain ⟨h1, h2, h3, h4, h5, h6, h7, h8⟩ := h
  refine ⟨?_, h2, ?_, h4, ?_, h6, h7, h8⟩
  · simp [updateLast, layersUpdate_length, h1]
  · intro i hi1 hi2
    unfold updateLast
    rw [layersUpdate_get?_ne _ _ _ _ (by omega)]
    exact h3 i hi1 hi2
  · intro a
    have hg : (updateLast C.accounts f).get? 0 = C.accounts.get? 0 := by
      unfold updateLast
      rw [layersUpdate_get?_ne _ _ _ _ (by omega)]
    have hl0 : layer0 { C with accounts := updateLast C.accounts f } = layer0 C := by
      unfold layer0
      rw [hg]
    rw [hl0]
    exact h5 a

theorem winv_updateLast_storage (O C : Store) (f : M (M Nat) → M (M Nat)) (h : WInv O C) :
    WInv O { C with storage := updateLast C.storage f } := by
  obtain ⟨h1, h2, h3, h4, h5, h6, h7, h8⟩ := h
  refine ⟨h1, ?_, h3, ?_, h5, h6, h7, h8⟩
  · simp [updateLast, layersUpdate_length, h2]
  · intro i hi
    unfold updateLast
    rw [layersUpdate_get?_ne _ _ _ _ (by omega)]
    exact h4 i hi

theorem winv_cache_fill (O C : Store) (a : Nat)
    (hnone : findInLayers C.accounts a = Option.none) (h : WInv O C) :
    WInv O { C with
      accounts := layersUpdate C.accounts 0 (fun l => minsert l a (forkedAccountOrNew C a)) } := by
  obtain ⟨h1, h2, h3, h4, h5, h6, h7, h8⟩ := h
  have hCnone : ∀ l ∈ C.accounts, mfind? l a = Option.none := findInLayers_eq_none.mp hnone
  have hl0C : mfind? (layer0 C) a = Option.none := by
    have h0 : C.accounts.get? 0 = some (layer0 C) := by
      unfold layer0
      cases hc : C.accounts.get? 0 with
      | some l => simp
      | none =>
          have := List.get?_eq_none.mp hc
          omega
    exact hCnone _ (List.get?_mem h0)
  have hOnone : findInLayers O.accounts a = Option.none := by
    rw [findInLayers_eq_none]
    intro l hl
    obtain ⟨i, hi⟩ := List.mem_iff_get?.mp hl
    cases i with
    | zero =>
        have : l = layer0 O := by
          unfold layer0
          rw [hi]
          rfl
        subst this
        rcases h5 a with hc | hc
        · rw [← hc]
          exact hl0C
        · exact hc.1.symm ▸ (findInLayers_eq_none.mp hc.1 _ hl)
    | succ i =>
        have hilen : i + 1 < O.accounts.length := by
          by_contra hcon
          rw [List.get?_eq_none.mpr (by omega)] at hi
          cases hi
        have := h3 (i + 1) (by omega) hilen
        rw [← this] at hi
        exact hCnone _ (List.get?_mem hi)
  have hfeq : forkedAccountOrNew C a = forkedAccountOrNew O a := by
    unfold forkedAccountOrNew
    rw [h8]
  refine ⟨?_, h2, ?_, h4, ?_, h6, h7, h8⟩
  · simp [layersUpdate_length, h1]
  · intro i hi1 hi2
    rw [layersUpdate_get?_ne _ _ _ _ (by omega)]
    exact h3 i hi1 hi2
  · intro x
    have hl0 : layer0 { C with
        accounts := layersUpdate C.accounts 0 (fun l => minsert l a (forkedAccountOrNew C a)) }
        = minsert (layer0 C) a (forkedAccountOrNew C a) := by
      unfold layer0
      rw [layersUpdate_get?_self]
      cases hc : C.accounts.get? 0 with
      | some l => simp
      | none =>
          have := List.get?_eq_none.mp hc
          omega
    rw [hl0, mfind?_minsert]
    by_cases hax : a = x
    · subst hax
      right
      rw [if_pos rfl, hfeq]
      exact ⟨hOnone, rfl⟩
    · rw [if_neg hax]
      exact h5 x

theorem winv_setAccountWith (O C : Store) (a : Nat) (mutate : DbAccount → DbAccount)
    (hO : 2 ≤ O.accounts.length) (h : WInv O C) :
    WInv O (setAccountWith C a mutate) := by
  unfold setAccountWith
  cases hf : findInLayers C.accounts a with
  | some d =>
      simp only [hf]
      exact winv_updateLast_accounts O _ _ hO (winv_journal_append O C _ h)
  | none =>
      simp only [hf, Option.getD_none]
      exact winv_updateLast_accounts O _ _ hO
        (winv_journal_append O _ _ (winv_cache_fill O C a hf h))

theorem winv_setStorage (O C : Store) (a i v : Nat) (h : WInv O C) :
    WInv O (C.setStorage a i v) := by
  unfold Store.setStorage
  exact winv_journal_append O _ _ (winv_updateLast_storage O C _ h)

theorem winv_insertContract (O C : Store) (info : AccountInfo) (h : WInv O C) :
    WInv O (insertContract C info).2 := by
  unfold insertContract
  dsimp only
  cases hcode : info.code with
  | none => exact h
  | some code =>
      dsimp only
      split
      · split
        · exact h
        · exact winv_journal_append O _ _ (winv_contracts O C _ h)
      · exact h

theorem winv_commitOne (O C : Store) (a : Nat) (acct : RevmAccount)
    (hO : 2 ≤ O.accounts.length) (h : WInv O C) :
    WInv O (commitOne C a acct) := by
  unfold commitOne
  split
  · exact h
  · split
    · dsimp only
      split
      · exact winv_journal_append O _ _
          (winv_journal_append O _ _ (winv_updateLast_accounts O C _ hO h))
      · exact winv_journal_append O _ _ (winv_updateLast_storage O _ _
          (winv_journal_append O _ _ (winv_updateLast_accounts O C _ hO h)))
    · exact winv_journal_append O _ _ (winv_updateLast_storage O _ _
        (winv_updateLast_accounts O _ _ hO (winv_insertContract O C acct.info h)))

theorem winv_commit (O C : Store) (changes : List (Nat × RevmAccount))
    (hO : 2 ≤ O.accounts.length) (h : WInv O C) :
    WInv O (C.commit changes) := by
  induction changes generalizing C with
  | nil => exact h
  | cons kv rest ih =>
      exact ih (commitOne C kv.1 kv.2) (winv_commitOne O C kv.1 kv.2 hO h)

theorem winv_applyWrite (O C : Store) (w : WriteOp)
    (hO : 2 ≤ O.accounts.length) (h : WInv O C) :
    WInv O (applyWrite C w) := by
  cases w with
  | setBalance a v => exact winv_setAccountWith O C a _ hO h
  | setNonce a n => exact winv_setAccountWith O C a _ hO h
  | setCode a c => exact winv_setAccountWith O C a _ hO h
  | setStorage a i v => exact winv_setStorage O C a i v h
  | commitDiff changes => exact winv_commit O C changes hO h

theorem winv_applyWrites (O C : Store) (ws : List WriteOp)
    (hO : 2 ≤ O.accounts.length) (h : WInv O C) :
    WInv O (applyWrites C ws) := by
  induction ws generalizing C with
  | nil => exact h
  | cons w rest ih => exact ih (applyWrite C w) (winv_applyWrite O C w hO h)

theorem winv_snapshot (O : Store) (hO : 1 ≤ O.accounts.length) :
    WInv O O.snapshot.2 := by
  refine ⟨?_, ?_, ?_, ?_, ?_, rfl, ?_, rfl⟩
  · simp [Store.snapshot]
  · simp [Store.snapshot]
  · intro i hi1 hi2
    simp only [Store.snapshot]
    exact List.get?_append hi2
  · intro i hi
    simp only [Store.snapshot]
    exact List.get?_append hi
  · intro a
    left
    have : layer0 O.snapshot.2 = layer0 O := by
      unfold layer0
      simp only [Store.snapshot]
      rw [List.get?_append (by omega)]
    rw [this]
  · simp [Store.snapshot]

theorem findSome?_concat {α β : Type} (l : List α) (b : α) (f : α → Option β) :
    (l ++ [b]).findSome? f =
      match l.findSome? f with
      | some v => some v
      | Option.none => f b := by
  induction l with
  | nil => cases hb : f b <;> simp [List.findSome?, hb]
  | cons x t ih =>
      cases hx : f x <;> simp [List.findSome?_cons, hx, ih]

theorem storageScan_concat (ps : List (M DbAccount × M (M Nat))) (bp : M DbAccount × M (M Nat))
    (x i : Nat) (lc : Bool) :
    storageScan (ps ++ [bp]) x i lc =
      match storageScan ps x i lc with
      | (some v, lcv) => (some v, lcv)
      | (Option.none, lcv) => storageScan [bp] x i lcv := by
  induction ps generalizing lc with
  | nil => simp [storageScan]
  | cons p t ih =>
      obtain ⟨accs, stor⟩ := p
      cases hma : mfind? accs x with
      | some d =>
          by_cases hne : d.accountState = AccountState.NotExisting
          · simp [storageScan, hma, hne]
          · cases hms : mfind? stor x with
            | some m =>
                cases hmi : mfind? m i with
                | some v => simp [storageScan, hma, hne, hms, hmi]
                | none => simp [storageScan, hma, hne, hms, hmi, ih]
            | none => simp [storageScan, hma, hne, hms, ih]
      | none =>
          cases hms : mfind? stor x with
          | some m =>
              cases hmi : mfind? m i with
              | some v => simp [storageScan, hma, hms, hmi]
              | none => simp [storageScan, hma, hms, hmi, ih]
          | none => simp [storageScan, hma, hms, ih]

theorem basicRef_snapshot (O : Store) (x : Nat) :
    O.snapshot.2.basicRef x = O.basicRef x := by
  unfold Store.basicRef findInLayers
  simp only [Store.snapshot, List.reverse_append, List.reverse_cons, List.reverse_nil,
    List.nil_append, List.singleton_append, List.findSome?_cons]
  simp [mfind?]

theorem storageRef_snapshot (O : Store) (x i : Nat) :
    O.snapshot.2.storageRef x i = O.storageRef x i := by
  unfold Store.storageRef
  simp only [Store.snapshot, List.reverse_append, List.reverse_cons, List.reverse_nil,
    List.nil_append, List.singleton_append, List.zip_cons_cons]
  simp [storageScan, mfind?]

theorem lastLayer_updateLast {β : Type} (ls : List (M β)) (f : M β → M β) (h : ls ≠ []) :
    lastLayer (updateLast ls f) = f (lastLayer ls) := by
  unfold lastLayer updateLast
  rw [layersUpdate_length, layersUpdate_get?_self]
  cases hg : ls.get? (ls.length - 1) with
  | some l => simp
  | none =>
      have h1 : 0 < ls.length := List.length_pos.mpr h
      have := List.get?_eq_none.mp hg
      omega

theorem reverse_eq_lastLayer_cons {β : Type} (ls : List (M β)) (h : ls ≠ []) :
    ls.reverse = lastLayer ls :: ls.dropLast.reverse := by
  have hd : ls.dropLast ++ [ls.getLast h] = ls := List.dropLast_append_getLast h
  have hlast : lastLayer ls = ls.getLast h := by
    unfold lastLayer
    rw [← List.getLast?_eq_get?, List.getLast?_eq_getLast ls h]
    rfl
  calc ls.reverse = (ls.dropLast ++ [ls.getLast h]).reverse := by rw [hd]
    _ = ls.getLast h :: ls.dropLast.reverse := by simp
    _ = lastLayer ls :: ls.dropLast.reverse := by rw [hlast]

theorem snapshot_writes_revert_reads (O : Store) (ws : List WriteOp)
    (hO2 : 2 ≤ O.accounts.length)
    (hlen : O.accounts.length = O.storage.length)
    (hdom : ∀ x, mfind? (layer0 O) x = Option.none → mfind? (stor0 O) x = Option.none)
    (hdb : ∀ x, O.db.basic x = Option.none → ∀ i, O.db.storage x i = 0) :
    (∀ x, (((applyWrites O.snapshot.2 ws).revertSnapshot O.snapshot.1).2).basicRef x
        = O.basicRef x) ∧
    (∀ x i, (((applyWrites O.snapshot.2 ws).revertSnapshot O.snapshot.1).2).storageRef x i
        = O.storageRef x i) := by
  have hW : WInv O (applyWrites O.snapshot.2 ws) :=
    winv_applyWrites O _ ws hO2 (winv_snapshot O (by omega))
  obtain ⟨h1, h2, h3, h4, h5, h6, h7, h8⟩ := hW
  have hid : (Store.snapshot O).1 = O.accounts.length - 1 := by
    simp [Store.snapshot]
  set C := applyWrites O.snapshot.2 ws with hCdef
  set R := (C.revertSnapshot O.snapshot.1).2 with hRdef
  have hRacc : R.accounts = C.accounts.take O.accounts.length := by
    rw [hRdef, hid]
    unfold Store.revertSnapshot
    dsimp only
    congr 1
    omega
  have hRst : R.storage = O.storage := by
    rw [hRdef, hid]
    unfold Store.revertSnapshot
    dsimp only
    apply List.ext
    intro n
    by_cases hn : n < O.storage.length
    · rw [List.get?_take (by omega)]
      exact h4 n hn
    · rw [List.get?_eq_none.mpr (by simp [List.length_take]; omega),
        List.get?_eq_none.mpr (by omega)]
  have hOcons : O.accounts = layer0 O :: O.accounts.tail := by
    unfold layer0
    cases hoa : O.accounts with
    | nil =>
        rw [hoa] at hO2
        simp at hO2
    | cons hd tl => rfl
  have hOscons : O.storage = stor0 O :: O.storage.tail := by
    unfold stor0
    cases hoa : O.storage with
    | nil =>
        rw [hoa] at hlen
        simp only [List.length_nil] at hlen
        omega
    | cons hd tl => rfl
  have hlayer0C : C.accounts.get? 0 = some (layer0 C) := by
    unfold layer0
    cases hc : C.accounts.get? 0 with
    | some l => rfl
    | none =>
        have := List.get?_eq_none.mp hc
        omega
  have hRaccCons : R.accounts = layer0 C :: O.accounts.tail := by
    rw [hRacc]
    apply List.ext
    intro n
    cases n with
    | zero =>
        rw [List.get?_take (by omega), hlayer0C]
        rfl
    | succ n =>
        by_cases hn : n + 1 < O.accounts.length
        · rw [List.get?_take hn, h3 (n + 1) (by omega) hn]
          conv_lhs => rw [hOcons]
          rfl
        · rw [List.get?_eq_none.mpr (by simp [List.length_take]; omega),
            List.get?_eq_none.mpr (by simp; omega)]
  have hRdb : R.db = O.db := h8
  have hmemO : layer0 O ∈ O.accounts := by
    rw [hOcons]
    exact List.mem_cons_self _ _
  constructor
  · intro x
    unfold Store.basicRef findInLayers
    rw [hRaccCons]
    conv_rhs => rw [hOcons]
    rw [List.reverse_cons, List.reverse_cons, findSome?_concat, findSome?_concat]
    cases hmid : O.accounts.tail.reverse.findSome? (fun l => mfind? l x) with
    | some d => simp [hmid]
    | none =>
        simp only [hmid]
        rcases h5 x with hc | ⟨hno, hc⟩
        · rw [hc, hRdb]
        · rw [hc]
          have hO0 : mfind? (layer0 O) x = Option.none :=
            findInLayers_eq_none.mp hno _ hmemO
          rw [hO0]
          unfold forkedAccountOrNew
          cases hbx : O.db.basic x with
          | some info => simp [DbAccount.infoOpt]
          | none => simp [DbAccount.newNotExisting, DbAccount.infoOpt, AccountInfo.default]
  · intro x i
    unfold Store.storageRef
    rw [hRaccCons, hRst]
    conv_rhs => rw [hOcons]
    rw [hOscons]
    simp only [List.reverse_cons]
    rw [List.zip_append (by simp; omega), List.zip_append (by simp; omega)]
    simp only [List.zip_cons_cons, List.zip_nil_right]
    rw [storageScan_concat, storageScan_concat]
    cases hcom : storageScan (O.accounts.tail.reverse.zip O.storage.tail.reverse) x i false with
    | mk ov lcv =>
        cases ov with
        | some v => simp
        | none =>
            simp only
            rcases h5 x with hc | ⟨hno, hc⟩
            · have hsc : storageScan [(layer0 C, stor0 O)] x i lcv
                  = storageScan [(layer0 O, stor0 O)] x i lcv := by
                unfold storageScan
                rw [hc]
              rw [hsc, hRdb]
            · have hO0 : mfind? (layer0 O) x = Option.none :=
                findInLayers_eq_none.mp hno _ hmemO
              have hS0 : mfind? (stor0 O) x = Option.none := hdom x hO0
              have e2 : storageScan [(layer0 O, stor0 O)] x i lcv = (Option.none, lcv) := by
                unfold storageScan
                rw [hO0, hS0]
                rfl
              cases hbx : O.db.basic x with
              | some info =>
                  have e1 : storageScan [(layer0 C, stor0 O)] x i lcv
                      = (Option.none, lcv) := by
                    unfold storageScan
                    rw [hc]
                    unfold forkedAccountOrNew
                    rw [hbx]
                    simp [hS0, storageScan]
                  rw [e1, e2, hRdb]
              | none =>
                  have e1 : storageScan [(layer0 C, stor0 O)] x i lcv = (some 0, lcv) := by
                    unfold storageScan
                    rw [hc]
                    unfold forkedAccountOrNew
                    rw [hbx]
                    simp [DbAccount.newNotExisting]
                  rw [e1, e2]
                  cases lcv with
                  | true => rfl
                  | false =>
                      simp only
                      rw [hdb x hbx i]

/-- **C1 (counterexample)**: bytecode reads do not round-trip.  On the
fresh store `storeC1`, take a snapshot, commit the diff `diffC1` (which
deploys bytecode `[1]` under code hash 5 at a touched, created account)
and revert the snapshot: `code_by_hash_ref(5)` answered `[]` (the
backing default) immediately before the write, but answers `[1]` after
the revert - the content-addressed `contracts` table is shared across
layers and `revert_snapshot` does not touch it. -/
theorem c1_code_read_counterexample :
    Store.codeByHashRef storeC1.snapshot.2 5 = [] ∧
    Store.codeByHashRef
      ((applyWrites storeC1.snapshot.2 [WriteOp.commitDiff diffC1]).revertSnapshot
        storeC1.snapshot.1).2 5 = [1] :=
  ⟨rfl, rfl⟩

/-- **C1**: snapshot round-trip, amended.  As claimed for account and
storage reads: for every store `O` with a well-formed layer stack (the
two initial layers present, equally many account and storage layers, no
slot cached in storage layer 0 for an address missing from account layer
0, and a backing source answering zero storage for absent accounts) and
every write sequence `ws` (the three setters, `set_storage`, committed
diffs) performed after `snapshot()` returned `id`, `revert_to(id)` yields
a store whose every `basic_ref` and `storage_ref` read equals its value
immediately before the first write.  The original claim's "code read"
clause is false: see `c1_code_read_counterexample`. -/
theorem c1_snapshot_roundtrip_reads (O : Store) (ws : List WriteOp)
    (hO2 : 2 ≤ O.accounts.length)
    (hlen : O.accounts.length = O.storage.length)
    (hdom : ∀ x, mfind? (layer0 O) x = Option.none → mfind? (stor0 O) x = Option.none)
    (hdb : ∀ x, O.db.basic x = Option.none → ∀ i, O.db.storage x i = 0) :
    (∀ x, (((applyWrites O.snapshot.2 ws).revertSnapshot O.snapshot.1).2).basicRef x
        = O.snapshot.2.basicRef x) ∧
    (∀ x i, (((applyWrites O.snapshot.2 ws).revertSnapshot O.snapshot.1).2).storageRef x i
        = O.snapshot.2.storageRef x i) := by
  obtain ⟨hb, hs⟩ := snapshot_writes_revert_reads O ws hO2 hlen hdom hdb
  refine ⟨fun x => ?_, fun x i => ?_⟩
  · exact (hb x).trans (basicRef_snapshot O x).symm
  · exact (hs x i).trans (storageRef_snapshot O x i).symm

/-- Witness for `c1_snapshot_roundtrip_reads`: the fresh store, one
balance write after the snapshot, reads evaluated at address 1, slot 0. -/
theorem c1_snapshot_roundtrip_reads_witness :
    2 ≤ (Store.new emptyDB 0).accounts.length ∧
    (((applyWrites (Store.new emptyDB 0).snapshot.2 [WriteOp.setBalance 1 5]).revertSnapshot
        (Store.new emptyDB 0).snapshot.1).2).basicRef 1
      = (Store.new emptyDB 0).snapshot.2.basicRef 1 ∧
    (((applyWrites (Store.new emptyDB 0).snapshot.2 [WriteOp.setBalance 1 5]).revertSnapshot
        (Store.new emptyDB 0).snapshot.1).2).storageRef 1 0
      = (Store.new emptyDB 0).snapshot.2.storageRef 1 0 := by
  have h := c1_snapshot_roundtrip_reads (Store.new emptyDB 0) [WriteOp.setBalance 1 5]
    (by decide) (by decide) (fun x _ => rfl) (fun x _ i => rfl)
  exact ⟨by decide, h.1 1, h.2 1 0⟩

theorem insertContract_fields (s : Store) (info : AccountInfo) :
    (insertContract s info).2.accounts = s.accounts ∧
    (insertContract s info).2.storage = s.storage := by
  unfold insertContract
  dsimp only
  cases hcode : info.code with
  | none => exact ⟨rfl, rfl⟩
  | some code =>
      dsimp only
      split
      · split
        · exact ⟨rfl, rfl⟩
        · exact ⟨rfl, rfl⟩
      · exact ⟨rfl, rfl⟩

theorem commitOne_lengths (s : Store) (a : Nat) (acct : RevmAccount) :
    (commitOne s a acct).accounts.length = s.accounts.length ∧
    (commitOne s a acct).storage.length = s.storage.length := by
  unfold commitOne
  split
  · exact ⟨rfl, rfl⟩
  · split
    · dsimp only
      split
      · simp [updateLast, layersUpdate_length]
      · simp [updateLast, layersUpdate_length]
    · dsimp only
      obtain ⟨ha, hs⟩ := insertContract_fields s acct.info
      constructor
      · simp [updateLast, layersUpdate_length, ha]
      · simp [updateLast, layersUpdate_length, hs]

theorem commit_lengths (s : Store) (changes : List (Nat × RevmAccount)) :
    (Store.commit s changes).accounts.length = s.accounts.length ∧
    (Store.commit s changes).storage.length = s.storage.length := by
  induction changes generalizing s with
  | nil => exact ⟨rfl, rfl⟩
  | cons p rest ih =>
      obtain ⟨ha, hs⟩ := ih (commitOne s p.1 p.2)
      obtain ⟨ha1, hs1⟩ := commitOne_lengths s p.1 p.2
      exact ⟨ha.trans ha1, hs.trans hs1⟩

/-- The selfdestruct branch of `commit` marks the writable-layer record
`new_not_existing()`. -/
theorem commitOne_lastLayer_sd (s : Store) (A : Nat) (acct : RevmAccount)
    (hne : s.accounts ≠ []) (ht : acct.touched = true) (hsd : acct.selfdestructed = true) :
    mfind? (lastLayer (commitOne s A acct).accounts) A = some DbAccount.newNotExisting := by
  unfold commitOne
  rw [if_neg (by simp [ht]), if_pos hsd]
  dsimp only
  split
  · rw [lastLayer_updateLast _ _ hne, mfind?_minsert, if_pos rfl]
  · rw [lastLayer_updateLast _ _ hne, mfind?_minsert, if_pos rfl]

/-- Committing a diff entry for a different address leaves the
writable-layer record of `A` unchanged. -/
theorem commitOne_lastLayer_other (s : Store) (b A : Nat) (acct : RevmAccount)
    (hne : s.accounts ≠ []) (hba : b ≠ A) :
    mfind? (lastLayer (commitOne s b acct).accounts) A
      = mfind? (lastLayer s.accounts) A := by
  unfold commitOne
  split
  · rfl
  · split
    · dsimp only
      split
      · rw [lastLayer_updateLast _ _ hne, mfind?_minsert, if_neg hba]
      · rw [lastLayer_updateLast _ _ hne, mfind?_minsert, if_neg hba]
    · dsimp only
      have ha := (insertContract_fields s acct.info).1
      rw [ha, lastLayer_updateLast _ _ hne, mfind?_minsert, if_neg hba]

theorem commit_lastLayer_other (s : Store) (post : List (Nat × RevmAccount)) (A : Nat)
    (hne : s.accounts ≠ []) (hpost : ∀ p ∈ post, p.1 ≠ A) :
    mfind? (lastLayer (Store.commit s post).accounts) A
      = mfind? (lastLayer s.accounts) A := by
  induction post generalizing s with
  | nil => rfl
  | cons p rest ih =>
      have hne1 : (commitOne s p.1 p.2).accounts ≠ [] := by
        intro hc
        have h1 := (commitOne_lengths s p.1 p.2).1
        rw [hc] at h1
        simp only [List.length_nil] at h1
        exact hne (List.length_eq_zero.mp h1.symm)
      have h1 := ih (commitOne s p.1 p.2) hne1 (fun q hq => hpost q (List.mem_cons_of_mem p hq))
      have h2 := commitOne_lastLayer_other s p.1 A p.2 hne (hpost p (List.mem_cons_self p rest))
      exact h1.trans h2

/-- A writable-layer `new_not_existing()` record makes `basic_ref` answer
`None` (the scan hits it first and `DbAccount::info()` hides it). -/
theorem basicRef_of_last_notExisting (s : Store) (A : Nat)
    (hne : s.accounts ≠ [])
    (hA : mfind? (lastLayer s.accounts) A = some DbAccount.newNotExisting) :
    s.basicRef A = Option.none := by
  unfold Store.basicRef findInLayers
  rw [reverse_eq_lastLayer_cons s.accounts hne, List.findSome?_cons]
  rw [hA]
  rfl

/-- A writable-layer `new_not_existing()` record makes every
`storage_ref` slot of the address answer zero (the scan stops there). -/
theorem storageRef_of_last_notExisting (s : Store) (A : Nat)
    (hnea : s.accounts ≠ []) (hnes : s.storage ≠ [])
    (hA : mfind? (lastLayer s.accounts) A = some DbAccount.newNotExisting) (slot : Nat) :
    s.storageRef A slot = 0 := by
  unfold Store.storageRef
  rw [reverse_eq_lastLayer_cons s.accounts hnea, reverse_eq_lastLayer_cons s.storage hnes,
    List.zip_cons_cons]
  simp only [storageScan, hA]
  simp [DbAccount.newNotExisting]

/-- **C3**: selfdestruct clearing.  Commit a diff
`pre ++ (A, acct) :: post` in which the entry for address `A` is touched
and selfdestructed and no later entry touches `A`, on a well-formed store
snapshotted beforehand.  Then: the writable layer records `A` as
`new_not_existing()`; every subsequent storage read of `A` returns zero;
reading `A`'s account answers `None` (the `NotExisting` record is hidden
by `DbAccount::info()`); and reverting the snapshot restores every
account and storage read - in particular `A`'s prior balance, code and
every previously-set slot - to its pre-commit value. -/
theorem c3_selfdestruct_clearing (O : Store) (pre post : List (Nat × RevmAccount))
    (A : Nat) (acct : RevmAccount)
    (hO2 : 2 ≤ O.accounts.length)
    (hlen : O.accounts.length = O.storage.length)
    (hdom : ∀ x, mfind? (layer0 O) x = Option.none → mfind? (stor0 O) x = Option.none)
    (hdb : ∀ x, O.db.basic x = Option.none → ∀ i, O.db.storage x i = 0)
    (ht : acct.touched = true) (hsd : acct.selfdestructed = true)
    (hpost : ∀ p ∈ post, p.1 ≠ A) :
    mfind? (lastLayer (Store.commit O.snapshot.2 (pre ++ (A, acct) :: post)).accounts) A
      = some DbAccount.newNotExisting ∧
    (∀ slot, (Store.commit O.snapshot.2 (pre ++ (A, acct) :: post)).storageRef A slot = 0) ∧
    (Store.commit O.snapshot.2 (pre ++ (A, acct) :: post)).basicRef A = Option.none ∧
    (∀ x, (((Store.commit O.snapshot.2 (pre ++ (A, acct) :: post)).revertSnapshot
        O.snapshot.1).2).basicRef x = O.snapshot.2.basicRef x) ∧
    (∀ x i, (((Store.commit O.snapshot.2 (pre ++ (A, acct) :: post)).revertSnapshot
        O.snapshot.1).2).storageRef x i = O.snapshot.2.storageRef x i) := by
  have hS1a : O.snapshot.2.accounts.length = O.accounts.length + 1 := by
    simp [Store.snapshot]
  have hS1s : O.snapshot.2.storage.length = O.storage.length + 1 := by
    simp [Store.snapshot]
  have hsplit : Store.commit O.snapshot.2 (pre ++ (A, acct) :: post)
      = Store.commit (commitOne (Store.commit O.snapshot.2 pre) A acct) post := by
    unfold Store.commit
    rw [List.foldl_append, List.foldl_cons]
  obtain ⟨hPa, hPs⟩ := commit_lengths O.snapshot.2 pre
  have hPne : (Store.commit O.snapshot.2 pre).accounts ≠ [] := by
    intro hc
    rw [hc] at hPa
    simp only [List.length_nil] at hPa
    omega
  obtain ⟨hCa, hCs⟩ := commitOne_lengths (Store.commit O.snapshot.2 pre) A acct
  have hCne : (commitOne (Store.commit O.snapshot.2 pre) A acct).accounts ≠ [] := by
    intro hc
    rw [hc] at hCa
    simp only [List.length_nil] at hCa
    omega
  obtain ⟨hFa, hFs⟩ := commit_lengths (commitOne (Store.commit O.snapshot.2 pre) A acct) post
  have hFane : (Store.commit (commitOne (Store.commit O.snapshot.2 pre) A acct) post).accounts
      ≠ [] := by
    intro hc
    rw [hc] at hFa
    simp only [List.length_nil] at hFa
    omega
  have hFsne : (Store.commit (commitOne (Store.commit O.snapshot.2 pre) A acct) post).storage
      ≠ [] := by
    intro hc
    rw [hc] at hFs
    simp only [List.length_nil] at hFs
    omega
  have hlastA : mfind? (lastLayer
      (Store.commit (commitOne (Store.commit O.snapshot.2 pre) A acct) post).accounts) A
      = some DbAccount.newNotExisting := by
    rw [commit_lastLayer_other _ post A hCne hpost,
      commitOne_lastLayer_sd _ A acct hPne ht hsd]
  refine ⟨?_, ?_, ?_, ?_, ?_⟩
  · rw [hsplit]
    exact hlastA
  · intro slot
    rw [hsplit]
    exact storageRef_of_last_notExisting _ A hFane hFsne hlastA slot
  · rw [hsplit]
    exact basicRef_of_last_notExisting _ A hFane hlastA
  · intro x
    have h := (snapshot_writes_revert_reads O
      [WriteOp.commitDiff (pre ++ (A, acct) :: post)] hO2 hlen hdom hdb).1 x
    exact h.trans (basicRef_snapshot O x).symm
  · intro x i
    have h := (snapshot_writes_revert_reads O
      [WriteOp.commitDiff (pre ++ (A, acct) :: post)] hO2 hlen hdom hdb).2 x i
    exact h.trans (storageRef_snapshot O x i).symm

/-- Witness for `c3_selfdestruct_clearing`: on `storeC3` (balance 100 and
slot 3 = 42 at address 7), snapshot, then commit the singleton diff
selfdestructing address 7, reads evaluated at address 7, slot 3. -/
theorem c3_selfdestruct_clearing_witness :
    acctSD.touched = true ∧
    mfind? (lastLayer (Store.commit storeC3.snapshot.2 ([] ++ (7, acctSD) :: [])).accounts) 7
      = some DbAccount.newNotExisting ∧
    (Store.commit storeC3.snapshot.2 ([] ++ (7, acctSD) :: [])).storageRef 7 3 = 0 ∧
    (Store.commit storeC3.snapshot.2 ([] ++ (7, acctSD) :: [])).basicRef 7 = Option.none ∧
    (((Store.commit storeC3.snapshot.2 ([] ++ (7, acctSD) :: [])).revertSnapshot
        storeC3.snapshot.1).2).basicRef 7 = storeC3.snapshot.2.basicRef 7 ∧
    (((Store.commit storeC3.snapshot.2 ([] ++ (7, acctSD) :: [])).revertSnapshot
        storeC3.snapshot.1).2).storageRef 7 3 = storeC3.snapshot.2.storageRef 7 3 := by
  have h := c3_selfdestruct_clearing storeC3 [] [] 7 acctSD (by decide) (by decide)
    (fun x _ => rfl) (fun x _ i => rfl) rfl rfl (fun p hp => absurd hp (List.not_mem_nil p))
  exact ⟨rfl, h.1, h.2.1 3, h.2.2.1, h.2.2.2.1 7, h.2.2.2.2 7 3⟩

theorem goodAcct_newNotExisting : GoodAcct DbAccount.newNotExisting :=
  fun _ => ⟨rfl, rfl, rfl⟩

theorem goodAcct_forkedAccountOrNew (s : Store) (a : Nat) :
    GoodAcct (forkedAccountOrNew s a) := by
  unfold forkedAccountOrNew
  cases s.db.basic a with
  | none => exact goodAcct_newNotExisting
  | some info => exact fun hc => AccountState.noConfusion hc

theorem goodAcct_touched (info : AccountInfo) (lc : Bool) :
    GoodAcct { info := info, accountState := AccountState.Touched, locallyCreated := lc } :=
  fun hc => AccountState.noConfusion hc

theorem touchIfNotExisting_ne (st : AccountState) :
    touchIfNotExisting st ≠ AccountState.NotExisting := by
  unfold touchIfNotExisting
  split
  · exact fun hc => AccountState.noConfusion hc
  · assumption

theorem goodAcct_touched_mutate (d : DbAccount) (info : AccountInfo) :
    GoodAcct { d with info := info, accountState := touchIfNotExisting d.accountState } :=
  fun hc => absurd hc (touchIfNotExisting_ne d.accountState)

theorem goodLayer_minsert {l : M DbAccount} {a : Nat} {v : DbAccount}
    (hl : GoodLayer l) (hv : GoodAcct v) : GoodLayer (minsert l a v) := by
  intro p hp
  rcases mem_minsert hp with h | h
  · exact hl p h
  · rw [h]
    exact hv

theorem goodLayer_mremove {l : M DbAccount} {a : Nat}
    (hl : GoodLayer l) : GoodLayer (mremove l a) :=
  fun p hp => hl p (mem_mremove hp)

theorem goodLayer_getD {ls : List (M DbAccount)} (h : ∀ l ∈ ls, GoodLayer l) (pos : Nat) :
    GoodLayer ((ls.get? pos).getD []) := by
  cases hg : ls.get? pos with
  | none => exact fun p hp => absurd hp (List.not_mem_nil p)
  | some l => exact h l (List.get?_mem hg)

theorem goodLayers_get? {ls : List (M DbAccount)} (h : ∀ l ∈ ls, GoodLayer l)
    {pos a : Nat} {d : DbAccount}
    (hd : mfind? ((ls.get? pos).getD []) a = some d) : GoodAcct d := by
  cases hg : ls.get? pos with
  | none =>
      rw [hg] at hd
      simp [mfind?] at hd
  | some l =>
      rw [hg] at hd
      exact h l (List.get?_mem hg) (a, d) (mfind?_eq_some_mem hd)

theorem goodLayers_lastLayer {ls : List (M DbAccount)} (h : ∀ l ∈ ls, GoodLayer l)
    {a : Nat} {d : DbAccount} (hd : mfind? (lastLayer ls) a = some d) : GoodAcct d := by
  unfold lastLayer at hd
  exact goodLayers_get? h hd

theorem goodAcct_of_findInLayers {s : Store} (h : GoodStore s) {a : Nat} {d : DbAccount}
    (hf : findInLayers s.accounts a = some d) : GoodAcct d := by
  unfold findInLayers at hf
  obtain ⟨l, hl, hfl⟩ := List.exists_of_findSome?_eq_some hf
  exact h.1 l (List.mem_reverse.mp hl) (a, d) (mfind?_eq_some_mem hfl)

theorem goodStore_journal_append {s : Store} (tl : List JournalEntry)
    (h : GoodStore s) (htl : ∀ e ∈ tl, GoodEntry e) :
    GoodStore { s with journal := s.journal ++ tl } := by
  obtain ⟨h1, h2⟩ := h
  refine ⟨h1, ?_⟩
  intro e he
  rcases List.mem_append.mp he with he | he
  · exact h2 e he
  · exact htl e he

theorem goodStore_accountsUpdate (i : Nat) (f : M DbAccount → M DbAccount) {s : Store}
    (h : GoodStore s) (hf : ∀ l, GoodLayer l → GoodLayer (f l)) :
    GoodStore { s with accounts := layersUpdate s.accounts i f } := by
  obtain ⟨h1, h2⟩ := h
  refine ⟨?_, h2⟩
  intro l hl
  rcases mem_layersUpdate hl with hl | ⟨y, hy, hly⟩
  · exact h1 l hl
  · rw [hly]
    exact hf y (h1 y hy)

theorem goodStore_storage_set {s : Store} (st : List (M (M Nat))) (h : GoodStore s) :
    GoodStore { s with storage := st } := h

theorem goodStore_contracts_set {s : Store} (m : M (List Nat)) (h : GoodStore s) :
    GoodStore { s with contracts := m } := h

theorem goodStore_blockHashes_set {s : Store} (m : M Nat) (h : GoodStore s) :
    GoodStore { s with blockHashes := m } := h

theorem forall_mem_singleton_goodEntry (e : JournalEntry) (he : GoodEntry e) :
    ∀ x ∈ [e], GoodEntry x := by
  intro x hx
  rw [List.mem_singleton] at hx
  subst hx
  exact he

theorem forall_mem_pair_goodEntry (e1 e2 : JournalEntry)
    (h1 : GoodEntry e1) (h2 : GoodEntry e2) :
    ∀ x ∈ [e1, e2], GoodEntry x := by
  intro x hx
  rcases List.mem_cons.mp hx with hx | hx
  · subst hx
    exact h1
  · rw [List.mem_singleton] at hx
    subst hx
    exact h2

theorem goodEntry_storageChange (a : Nat) (sc : M (Option Nat)) :
    GoodEntry (JournalEntry.storageChange a sc) := True.intro

theorem goodEntry_storageReplace (a : Nat) (p : Option (M Nat)) :
    GoodEntry (JournalEntry.storageReplace a p) := True.intro

theorem goodEntry_contractChange (ch : Nat) (p : Option (List Nat)) :
    GoodEntry (JournalEntry.contractChange ch p) := True.intro

theorem goodEntry_accountChange_opt {s : Store} (h : GoodStore s) (a : Nat) :
    GoodEntry (JournalEntry.accountChange a (mfind? (lastLayer s.accounts) a)) := by
  cases hg : mfind? (lastLayer s.accounts) a with
  | none => exact True.intro
  | some d => exact goodLayers_lastLayer h.1 hg

theorem goodStore_new (db : ExtDB) (n : Nat) : GoodStore (Store.new db n) := by
  constructor
  · intro l hl
    have hle : l = [] := by
      simp [Store.new] at hl
      exact hl
    rw [hle]
    exact fun p hp => absurd hp (List.not_mem_nil p)
  · intro e he
    simp [Store.new] at he

theorem goodStore_setAccountWith (s : Store) (a : Nat) (mutate : DbAccount → DbAccount)
    (hmut : ∀ d, GoodAcct (mutate d)) (h : GoodStore s) :
    GoodStore (setAccountWith s a mutate) := by
  unfold setAccountWith
  cases hf : findInLayers s.accounts a with
  | some d =>
      simp only [hf, Option.getD_some]
      have hE : GoodEntry (JournalEntry.accountChange a
          (some ((mfind? (lastLayer s.accounts) a).getD d))) := by
        cases hg : mfind? (lastLayer s.accounts) a with
        | some d2 => exact goodLayers_lastLayer h.1 hg
        | none => exact goodAcct_of_findInLayers h hf
      exact goodStore_accountsUpdate _ _
        (goodStore_journal_append _ h (forall_mem_singleton_goodEntry _ hE))
        (fun l hl => goodLayer_minsert hl (hmut _))
  | none =>
      simp only [hf, Option.getD_none]
      have hs1 : GoodStore { s with
          accounts := layersUpdate s.accounts 0 (fun l => minsert l a (forkedAccountOrNew s a)) } :=
        goodStore_accountsUpdate _ _ h
          (fun l hl => goodLayer_minsert hl (goodAcct_forkedAccountOrNew s a))
      have hE : GoodEntry (JournalEntry.accountChange a
          (some ((mfind? (lastLayer (layersUpdate s.accounts 0
            (fun l => minsert l a (forkedAccountOrNew s a)))) a).getD
            (forkedAccountOrNew s a)))) := by
        cases hg : mfind? (lastLayer (layersUpdate s.accounts 0
            (fun l => minsert l a (forkedAccountOrNew s a)))) a with
        | some d2 => exact goodLayers_lastLayer hs1.1 hg
        | none => exact goodAcct_forkedAccountOrNew s a
      exact goodStore_accountsUpdate _ _
        (goodStore_journal_append _ hs1 (forall_mem_singleton_goodEntry _ hE))
        (fun l hl => goodLayer_minsert hl (hmut _))

theorem goodStore_setStorage (s : Store) (a i v : Nat) (h : GoodStore s) :
    GoodStore (s.setStorage a i v) := by
  unfold Store.setStorage
  obtain ⟨h1, h2⟩ := h
  refine ⟨h1, ?_⟩
  intro e he
  rcases List.mem_append.mp he with he | he
  · exact h2 e he
  · rw [List.mem_singleton] at he
    subst he
    exact True.intro

theorem goodStore_insertContract (s : Store) (info : AccountInfo) (h : GoodStore s) :
    GoodStore (insertContract s info).2 := by
  unfold insertContract
  dsimp only
  cases hcode : info.code with
  | none => exact h
  | some code =>
      dsimp only
      split
      · split
        · exact h
        · exact goodStore_journal_append _ (goodStore_contracts_set _ h)
            (forall_mem_singleton_goodEntry _ (goodEntry_contractChange _ _))
      · exact h

theorem goodStore_commitOne (s : Store) (a : Nat) (acct : RevmAccount) (h : GoodStore s) :
    GoodStore (commitOne s a acct) := by
  unfold commitOne
  split
  · exact h
  · split
    · dsimp only
      have hs1 : GoodStore { s with
          accounts := updateLast s.accounts (fun l => minsert l a DbAccount.newNotExisting) } :=
        goodStore_accountsUpdate _ _ h
          (fun l hl => goodLayer_minsert hl goodAcct_newNotExisting)
      have hs2 : GoodStore { { s with
          accounts := updateLast s.accounts (fun l => minsert l a DbAccount.newNotExisting) } with
          journal := s.journal ++
            [JournalEntry.accountChange a (mfind? (lastLayer s.accounts) a)] } :=
        goodStore_journal_append _ hs1
          (forall_mem_singleton_goodEntry _ (goodEntry_accountChange_opt h a))
      split
      · exact goodStore_journal_append _ hs2
          (forall_mem_singleton_goodEntry _ (goodEntry_storageReplace _ _))
      · exact goodStore_journal_append _ (goodStore_storage_set _ hs2)
          (forall_mem_singleton_goodEntry _ (goodEntry_storageReplace _ _))
    · dsimp only
      have hs1 : GoodStore (insertContract s acct.info).2 := goodStore_insertContract s acct.info h
      have hE : GoodEntry (JournalEntry.accountChange a
          (mfind? (lastLayer (insertContract s acct.info).2.accounts) a)) :=
        goodEntry_accountChange_opt hs1 a
      split
      · exact goodStore_journal_append _
          (goodStore_storage_set _
            (goodStore_accountsUpdate _ _ hs1
              (fun l hl => goodLayer_minsert hl (goodAcct_touched _ _))))
          (forall_mem_pair_goodEntry _ _ hE (goodEntry_storageChange _ _))
      · exact goodStore_journal_append _
          (goodStore_storage_set _
            (goodStore_accountsUpdate _ _ hs1
              (fun l hl => goodLayer_minsert hl (goodAcct_touched _ _))))
          (forall_mem_pair_goodEntry _ _ hE (goodEntry_storageChange _ _))

theorem goodStore_commit (s : Store) (changes : List (Nat × RevmAccount)) (h : GoodStore s) :
    GoodStore (s.commit changes) := by
  induction changes generalizing s with
  | nil => exact h
  | cons p t ih => exact ih _ (goodStore_commitOne s p.1 p.2 h)

theorem goodStore_snapshot (s : Store) (h : GoodStore s) : GoodStore s.snapshot.2 := by
  unfold Store.snapshot
  dsimp only
  obtain ⟨h1, h2⟩ := h
  refine ⟨?_, h2⟩
  intro l hl
  rcases List.mem_append.mp hl with hl | hl
  · exact h1 l hl
  · rw [List.mem_singleton] at hl
    subst hl
    exact fun p hp => absurd hp (List.not_mem_nil p)

theorem goodStore_revertSnapshot (s : Store) (id : Nat) (h : GoodStore s) :
    GoodStore (s.revertSnapshot id).2 := by
  unfold Store.revertSnapshot
  dsimp only
  obtain ⟨h1, h2⟩ := h
  refine ⟨?_, ?_⟩
  · intro l hl
    exact h1 l (List.take_subset _ _ hl)
  · intro e he
    exact h2 e (List.take_subset _ _ he)

theorem goodStore_basicMut (s : Store) (a : Nat) (h : GoodStore s) :
    GoodStore (s.basicMut a).2 := by
  unfold Store.basicMut
  cases hf : findInLayers s.accounts a with
  | some d =>
      simp only [hf]
      exact h
  | none =>
      simp only [hf]
      exact goodStore_accountsUpdate _ _ h
        (fun l hl => goodLayer_minsert hl (goodAcct_forkedAccountOrNew s a))

theorem goodStore_storageMut (s : Store) (a i : Nat) (h : GoodStore s) :
    GoodStore (s.storageMut a i).2 := by
  unfold Store.storageMut
  split
  · exact h
  · exact h
  · dsimp only
    split
    · exact goodStore_storage_set _ h
    · cases hb : s.db.basic a with
      | some i2 =>
          exact goodStore_storage_set _
            (goodStore_accountsUpdate _ _ h
              (fun l hl => goodLayer_minsert hl (fun hc => AccountState.noConfusion hc)))
      | none =>
          exact goodStore_storage_set _
            (goodStore_accountsUpdate _ _ h
              (fun l hl => goodLayer_minsert hl goodAcct_newNotExisting))

theorem goodStore_codeByHashMut (s : Store) (ch : Nat) (h : GoodStore s) :
    GoodStore (s.codeByHashMut ch).2 := by
  unfold Store.codeByHashMut
  split
  · exact h
  · exact goodStore_contracts_set _ h

theorem goodStore_blockHashMut (s : Store) (n : Nat) (h : GoodStore s) :
    GoodStore (s.blockHashMut n).2 := by
  unfold Store.blockHashMut
  split
  · exact h
  · split
    · exact h
    · exact goodStore_blockHashes_set _ h

theorem good_rollbackJournalEntry (s : Store) (e : JournalEntry) (j : Nat)
    (h : GoodStore s) (he : GoodEntry e) :
    GoodEntry (rollbackJournalEntry s e j).1 ∧ GoodStore (rollbackJournalEntry s e j).2 := by
  unfold rollbackJournalEntry
  cases e with
  | contractChange ch prev =>
      exact ⟨goodEntry_contractChange _ _, goodStore_contracts_set _ h⟩
  | accountChange addr acc =>
      have hI : GoodEntry (JournalEntry.accountChange addr
          (mfind? ((s.accounts.get?
            (binarySearchUnwrap s.snapshotJournalIndexes (j + 1) + 1)).getD []) addr)) := by
        cases hg : mfind? ((s.accounts.get?
            (binarySearchUnwrap s.snapshotJournalIndexes (j + 1) + 1)).getD []) addr with
        | none => exact True.intro
        | some d2 => exact goodLayers_get? h.1 hg
      cases acc with
      | some d =>
          refine ⟨hI, ?_⟩
          exact goodStore_accountsUpdate _ _ h
            (fun l hl => goodLayer_minsert (goodLayer_getD h.1 _) he)
      | none =>
          refine ⟨hI, ?_⟩
          exact goodStore_accountsUpdate _ _ h
            (fun l hl => goodLayer_mremove (goodLayer_getD h.1 _))
  | storageChange addr sc =>
      exact ⟨goodEntry_storageChange _ _, goodStore_storage_set _ h⟩
  | storageReplace addr st =>
      exact ⟨goodEntry_storageReplace _ _, goodStore_storage_set _ h⟩

theorem good_rollbackLoop (n : Nat) (s : Store) (h : GoodStore s) :
    (∀ e ∈ (rollbackLoop n s).1, GoodEntry e) ∧ GoodStore (rollbackLoop n s).2 := by
  induction n generalizing s with
  | zero => exact ⟨fun e he => absurd he (List.not_mem_nil e), h⟩
  | succ n ih =>
      unfold rollbackLoop
      cases hg : s.journal.getLast? with
      | none => exact ⟨fun e he => absurd he (List.not_mem_nil e), h⟩
      | some entry =>
          dsimp only
          have hs1 : GoodStore { s with journal := s.journal.dropLast } := by
            obtain ⟨h1, h2⟩ := h
            exact ⟨h1, fun e he => h2 e (List.dropLast_subset _ he)⟩
          have hentry : GoodEntry entry := h.2 entry (List.mem_of_getLast?_eq_some hg)
          obtain ⟨hI, hs2⟩ := good_rollbackJournalEntry
            { s with journal := s.journal.dropLast } entry
            ({ s with journal := s.journal.dropLast } : Store).journal.length hs1 hentry
          obtain ⟨ih1, ih2⟩ := ih _ hs2
          refine ⟨?_, ih2⟩
          intro e he
          rcases List.mem_cons.mp he with he | he
          · subst he
            exact hI
          · exact ih1 e he

/-- The entry lists actually produced by `rollback` on an
invariant-satisfying store satisfy the hypothesis of `Reach.restore`. -/
theorem rollback_entries_good (s : Store) (j : Nat) (h : GoodStore s) :
    ∀ e ∈ (s.rollback j).1, GoodEntry e :=
  (good_rollbackLoop (s.journal.length - j) s h).1

theorem goodStore_restoreFold (L : List JournalEntry) (s : Store)
    (hL : ∀ e ∈ L, GoodEntry e) (h : GoodStore s) :
    GoodStore (L.foldl (fun s entry =>
      let rs := rollbackJournalEntry s entry s.journal.length
      { rs.2 with journal := rs.2.journal ++ [rs.1] }) s) := by
  induction L generalizing s with
  | nil => exact h
  | cons e t ih =>
      have he : GoodEntry e := hL e (List.mem_cons_self e t)
      obtain ⟨hI, hs2⟩ := good_rollbackJournalEntry s e s.journal.length h he
      exact ih _ (fun x hx => hL x (List.mem_cons_of_mem e hx))
        (goodStore_journal_append _ hs2 (forall_mem_singleton_goodEntry _ hI))

theorem goodStore_restoreRollback (s : Store) (entries : List JournalEntry)
    (he : ∀ e ∈ entries, GoodEntry e) (h : GoodStore s) :
    GoodStore (s.restoreRollback entries) :=
  goodStore_restoreFold entries.reverse s
    (fun e hee => he e (List.mem_reverse.mp hee)) h

theorem goodStore_reach {s : Store} (h : Reach s) : GoodStore s := by
  induction h with
  | init db n => exact goodStore_new db n
  | setBalance a v _ ih =>
      exact goodStore_setAccountWith _ _ _ (fun d => goodAcct_touched_mutate d _) ih
  | setNonce a n _ ih =>
      exact goodStore_setAccountWith _ _ _ (fun d => goodAcct_touched_mutate d _) ih
  | setCode a c _ ih =>
      exact goodStore_setAccountWith _ _ _ (fun d => goodAcct_touched_mutate d _) ih
  | setStorage a i v _ ih => exact goodStore_setStorage _ a i v ih
  | commit changes _ ih => exact goodStore_commit _ changes ih
  | snapshot _ ih => exact goodStore_snapshot _ ih
  | revert id _ ih => exact goodStore_revertSnapshot _ id ih
  | basic a _ ih => exact goodStore_basicMut _ a ih
  | storageRead a i _ ih => exact goodStore_storageMut _ a i ih
  | codeByHash hc _ ih => exact goodStore_codeByHashMut _ hc ih
  | blockHash n _ ih => exact goodStore_blockHashMut _ n ih
  | rollback j _ ih => exact (good_rollbackLoop _ _ ih).2
  | restore entries hent _ ih => exact goodStore_restoreRollback _ entries hent ih

/-- **C9**: the `NotExisting` invariant.  In every store state reachable
by any sequence of store operations (reads that populate the caches, the
three account setters, `set_storage`, `commit`, `snapshot`,
`revert_snapshot`, `rollback` and `restore_rollback`), every account
record in every layer whose existence state is `NotExisting` has zero
balance, zero nonce and no code. -/
theorem c9_not_existing_invariant (s : Store) (h : Reach s) :
    ∀ layer ∈ s.accounts, ∀ a d, mfind? layer a = some d →
      d.accountState = AccountState.NotExisting →
      d.info.balance = 0 ∧ d.info.nonce = 0 ∧ d.info.code = Option.none := by
  intro layer hl a d hd hne
  exact (goodStore_reach h).1 layer hl (a, d) (mfind?_eq_some_mem hd) hne

/-- Witness for `c9_not_existing_invariant`: after `set_balance(3, 10)` on
a fresh store, layer 0 holds the cached `new_not_existing()` record for
address 3, and the invariant evaluates on it. -/
theorem c9_not_existing_invariant_witness :
    [(3, DbAccount.newNotExisting)] ∈ ((Store.new emptyDB 0).setBalance 3 10).accounts ∧
    mfind? [(3, DbAccount.newNotExisting)] 3 = some DbAccount.newNotExisting ∧
    DbAccount.newNotExisting.accountState = AccountState.NotExisting ∧
    (DbAccount.newNotExisting.info.balance = 0 ∧ DbAccount.newNotExisting.info.nonce = 0 ∧
      DbAccount.newNotExisting.info.code = Option.none) :=
  ⟨by decide, by decide, rfl,
    c9_not_existing_invariant ((Store.new emptyDB 0).setBalance 3 10)
      (Reach.setBalance 3 10 (Reach.init emptyDB 0))
      [(3, DbAccount.newNotExisting)] (by decide) 3 DbAccount.newNotExisting (by decide) rfl⟩

/-- Witness for `c8_set_block_gas_limit` at a concrete chain with
pending gas 500 and new limit 1000. -/
theorem c8_set_block_gas_limit_witness :
    ({ chainW with pendingGasUsed := 500 } : ChainState).pendingGasUsed ≤ 1000 ∧
    ((({ chainW with pendingGasUsed := 500 } : ChainState).setBlockGasLimit 1000).1
        = Except.ok () ∧
      (({ chainW with pendingGasUsed := 500 } : ChainState).setBlockGasLimit 1000).2.blockGasLimit
        = 1000 ∧
      (({ chainW with pendingGasUsed := 500 } : ChainState).setBlockGasLimit 1000).2.evmBlock.gasLimit
        = 1000 - ({ chainW with pendingGasUsed := 500 } : ChainState).pendingGasUsed) := by
  exact ⟨by decide, (c8_set_block_gas_limit { chainW with pendingGasUsed := 500 } 1000).2 (by decide)⟩

end Wake
